import Mathlib

/-!
Verification of the cache/coordinate core of the `cmpm-121-demo-3` map game.

The repository contains several revisions of the same single-file game
(`src/unnamed/part_001` … `part_003`, `src/main.ts`).  Each revision is
embedded in its own namespace (`Part001`, `Part002`, `Part003`), translating
the TypeScript functions into pure Lean functions with all mutable globals
(registries, counters, the RNG cursor) threaded explicitly.

Modelling conventions:
- JavaScript numbers are modelled as `ℚ` (coordinates, random draws) or
  `ℕ`/`ℤ` (counts, scores, grid indices).  Floating-point rounding is out of
  scope of the claims under verification.
- `Math.random()` is modelled as an explicit stream `rand : ℕ → ℚ` together
  with a cursor index that advances by one per draw, so "one fresh draw per
  cell" is visible in the model.
- JavaScript `Map` objects (string keys `"x,y"` built from integer pairs,
  which are in bijection with the pairs themselves) are modelled as
  association lists keyed by `ℤ × ℤ`, preserving insertion order and
  overwrite semantics.
- `localStorage` is modelled as an `Option String` field; `JSON.stringify` /
  `JSON.parse` are modelled by an executable printer and parser over a JSON
  value type, developed below (covering the whitespace-free, escape-free
  fragment that `JSON.stringify` emits for this game's data).
-/

/-! ## JavaScript `Map` as an association list -/

/-- Lookup in a JS `Map` modelled as an association list: first entry with the
key wins (keys are kept unique by `mapSet`). -/
def mapGet {α β : Type} [DecidableEq α] (m : List (α × β)) (k : α) : Option β :=
  (m.find? (fun e => e.1 = k)).map (fun e => e.2)

/-- `Map.set`: overwrite the entry in place if the key is present, otherwise
append at the end (JS `Map` preserves insertion order). -/
def mapSet {α β : Type} [DecidableEq α] (m : List (α × β)) (k : α) (v : β) :
    List (α × β) :=
  match m with
  | [] => [(k, v)]
  | e :: rest => if e.1 = k then (k, v) :: rest else e :: mapSet rest k v

/-! ## Shared flyweight position factory

`part_003`'s `PositionFactory.getPosition` and `part_001`'s
`LocationFactory.getLocation` have the same body: memoize
`origin + (i * GRID_STEP, j * GRID_STEP)` keyed by the index pair. -/

/-- The grid granularity, 1e-4 degrees (`GRID_STEP` / `GRID_SIZE`). -/
def GRID_STEP : ℚ := 1 / 10000

/-- Origin of the grid, Null Island `(0, 0)` (`INITIAL_POSITION` / `NULL_ISLAND`). -/
def INITIAL_POSITION : ℚ × ℚ := (0, 0)

/-- State of the flyweight factory: the `locationCache` map. -/
abbrev Factory : Type := List ((ℤ × ℤ) × (ℚ × ℚ))

/-- `getPosition(x, y)` of `part_003` (= `getLocation(i, j)` of `part_001`):
if the key is not cached, compute `origin + (x*step, y*step)` and cache it;
return the cached value.  Returns the value and the updated factory. -/
def getPosition (f : Factory) (x y : ℤ) : (ℚ × ℚ) × Factory :=
  match mapGet f (x, y) with
  | some v => (v, f)
  | none =>
      let v : ℚ × ℚ :=
        (INITIAL_POSITION.1 + x * GRID_STEP, INITIAL_POSITION.2 + y * GRID_STEP)
      (v, mapSet f (x, y) v)

/-- Well-formedness of a factory: every cached entry holds the grid formula
value for its key. -/
def FactoryWF (f : Factory) : Prop :=
  ∀ k v, mapGet f k = some v →
    v = (INITIAL_POSITION.1 + k.1 * GRID_STEP, INITIAL_POSITION.2 + k.2 * GRID_STEP)

namespace Part003

/-! ## Embedding of `src/unnamed/part_003` (the final revision) -/

/-- `CACHE_ZONE_RADIUS = 3`. -/
def CACHE_ZONE_RADIUS : ℤ := 3

/-- `SPAWN_PROBABILITY = 0.02`. -/
def SPAWN_PROBABILITY : ℚ := 2 / 100

/-- `MOVE_DELTA = GRID_STEP`. -/
def MOVE_DELTA : ℚ := GRID_STEP

/-- `interface Coin { x, y, id }`. -/
structure Coin where
  x : ℤ
  y : ℤ
  id : ℕ
deriving DecidableEq

/-- `generateCoins(x, y, amount)`: `Array.from({length: amount}, (_, id) => ({x, y, id}))`
— the `id` of each coin is its position in this one call's array. -/
def generateCoins (x y : ℤ) (amount : ℕ) : List Coin :=
  (List.range amount).map (fun id => ⟨x, y, id⟩)

/-- `class CacheZone { storedCoins; x; y }`. -/
structure CacheZone where
  x : ℤ
  y : ℤ
  storedCoins : List Coin
deriving DecidableEq

/-- The `CacheZone` constructor: `storedCoins = generateCoins(x, y,
Math.floor(Math.random() * 5) + 1)`, with `r` the `Math.random()` draw. -/
def CacheZone.init (x y : ℤ) (r : ℚ) : CacheZone :=
  ⟨x, y, generateCoins x y ((⌊r * 5⌋).toNat + 1)⟩

/-- `retrieveCoins()`: returns the number of stored coins and empties the zone. -/
def CacheZone.retrieveCoins (z : CacheZone) : ℕ × CacheZone :=
  (z.storedCoins.length, { z with storedCoins := [] })

/-- `addCoins(newCoins)`: appends the given coins to the stored sequence. -/
def CacheZone.addCoins (z : CacheZone) (newCoins : List Coin) : CacheZone :=
  { z with storedCoins := z.storedCoins ++ newCoins }

/-- The cache registry `caches : Map<string, CacheZone>` keyed by
the `"x,y"` string, i.e. by the integer pair. -/
abbrev Registry : Type := List ((ℤ × ℤ) × CacheZone)

/-- The mutable world touched by cache creation/regeneration: the `caches`
registry, the position factory's memo table, and the cursor into the
`Math.random()` stream. -/
structure RegenState where
  caches : Registry
  factory : Factory
  k : ℕ
deriving DecidableEq

/-- `createCache(x, y)`: look the cell up in the registry; only if absent,
construct a `new CacheZone(x, y)` (which consumes one random draw for its
coin count) and register it.  Afterwards the cache rectangle's bounds are
computed through the position factory (memoizing `(x,y)` and `(x+1,y+1)`);
popup wiring is UI-only and stateless here. -/
def createCache (rand : ℕ → ℚ) (x y : ℤ) (w : RegenState) : RegenState :=
  let w1 :=
    match mapGet w.caches (x, y) with
    | some _ => w
    | none =>
        { w with
          caches := mapSet w.caches (x, y) (CacheZone.init x y (rand w.k)),
          k := w.k + 1 }
  let p1 := getPosition w1.factory x y
  let p2 := getPosition p1.2 (x + 1) (y + 1)
  { w1 with factory := p2.2 }

/-- The integer range `[c - R, c + R]` in loop order (`for (x = c-R; x <= c+R; x++)`). -/
def cellRange (c R : ℤ) : List ℤ :=
  (List.range (2 * R + 1).toNat).map (fun t : ℕ => c - R + (t : ℤ))

/-- The square of cells visited by one regeneration pass, outer loop over `x`,
inner loop over `y` — exactly the cells at Chebyshev distance ≤ R. -/
def squareCells (px py R : ℤ) : List (ℤ × ℤ) :=
  (cellRange px R).flatMap (fun x => (cellRange py R).map (fun y => (x, y)))

/-- One inner-loop iteration of `regenerateNearbyCaches`: draw
`Math.random()` for this cell and spawn when the draw is below the
probability. -/
def regenStep (rand : ℕ → ℚ) (p : ℚ) (w : RegenState) (cell : ℤ × ℤ) : RegenState :=
  let r := rand w.k
  let w' := { w with k := w.k + 1 }
  if r < p then createCache rand cell.1 cell.2 w' else w'

/-- `regenerateNearbyCaches(playerPosition)`, with the radius and spawn
probability as parameters (the source instantiates them with the constants
`CACHE_ZONE_RADIUS` and `SPAWN_PROBABILITY`): recompute the player's grid cell
by floor division and sweep the surrounding square. -/
def regenerateNearbyCaches (R : ℤ) (p : ℚ) (rand : ℕ → ℚ) (pos : ℚ × ℚ)
    (w : RegenState) : RegenState :=
  let playerX := ⌊(pos.1 - INITIAL_POSITION.1) / GRID_STEP⌋
  let playerY := ⌊(pos.2 - INITIAL_POSITION.2) / GRID_STEP⌋
  (squareCells playerX playerY R).foldl (regenStep rand p) w

/-- The full mutable state of `part_003`: player stats, trail, move counter,
player marker position, cache registry, position-factory memo, and the
`localStorage` slot `"gameState"`. -/
structure GameState where
  totalScore : ℕ
  collectedCoins : ℕ
  playerTrail : List (ℚ × ℚ)
  totalMoves : ℕ
  playerPos : ℚ × ℚ
  caches : Registry
  factory : Factory
  store : Option String
deriving DecidableEq

/-- The state at script start: zero score/coins/moves, empty trail, player at
`INITIAL_PLAYER_POS = (0,0)`, empty registry and factory, nothing persisted. -/
def initState : GameState :=
  { totalScore := 0, collectedCoins := 0, playerTrail := [], totalMoves := 0,
    playerPos := INITIAL_POSITION, caches := [], factory := [], store := none }

/-- The `#collectCoins` popup handler for the cache at `(x, y)`: when the zone
has coins, `collectedCoins += cache.retrieveCoins()` (which empties the zone). -/
def collectHandler (st : GameState) (x y : ℤ) : GameState :=
  match mapGet st.caches (x, y) with
  | none => st
  | some cache =>
      if cache.storedCoins.length > 0 then
        let r := cache.retrieveCoins
        { st with
          collectedCoins := st.collectedCoins + r.1,
          caches := mapSet st.caches (x, y) r.2 }
      else st

/-- The `#depositCoins` popup handler for the cache at `(x, y)`: when the
player carries coins, append `generateCoins(x, y, collectedCoins)` to the
zone, add the carried count to the score, and zero the carried count. -/
def depositHandler (st : GameState) (x y : ℤ) : GameState :=
  match mapGet st.caches (x, y) with
  | none => st
  | some cache =>
      if st.collectedCoins > 0 then
        { st with
          caches :=
            mapSet st.caches (x, y)
              (cache.addCoins (generateCoins x y st.collectedCoins)),
          totalScore := st.totalScore + st.collectedCoins,
          collectedCoins := 0 }
      else st

/-- The `#resetGame` handler (confirmation accepted): zero the score, carried
coins and move counter, clear the trail and the registry, and remove the
persisted `"gameState"` entry.  The player marker is not moved. -/
def resetHandler (st : GameState) : GameState :=
  { st with
    totalScore := 0, collectedCoins := 0, totalMoves := 0,
    playerTrail := [], caches := [], store := none }

end Part003

/-! ## JSON

An executable model of `JSON.stringify` / `JSON.parse` sufficient for the
data this game persists: the whitespace-free, escape-free fragment that
`JSON.stringify` emits, with numbers restricted to finite decimals (every
JavaScript number prints as one). -/

/-- JSON values.  Numbers are rationals; only finite decimals are printable. -/
inductive Json where
  | null : Json
  | bool : Bool → Json
  | num : ℚ → Json
  | str : List Char → Json
  | arr : List Json → Json
  | obj : List (List Char × Json) → Json

/-- Little-endian base-10 digits by structural recursion on a fuel bound
(kernel-reducible, unlike `Nat.digits`); `natDigits n n` is `Nat.digits 10 n`. -/
def natDigits : ℕ → ℕ → List ℕ
  | 0, _ => []
  | fuel + 1, n => if n = 0 then [] else n % 10 :: natDigits fuel (n / 10)

/-- Decimal digits of `n`, most significant first; `0` has digit list `[0]`. -/
def msbDigits (n : ℕ) : List ℕ :=
  if n = 0 then [0] else (natDigits n n).reverse

/-- Exactly `e` decimal digits of `f < 10^e`, most significant first
(leading zeros included). -/
def fracDigits (f e : ℕ) : List ℕ :=
  (natDigits f f ++ List.replicate (e - (natDigits f f).length) 0).reverse

/-- Decimal digits of `n` as characters, most significant first. -/
def printNatChars (n : ℕ) : List Char := (msbDigits n).map Nat.digitChar

/-- Exactly `e` decimal digit characters of `f < 10^e`. -/
def printFrac (f e : ℕ) : List Char := (fracDigits f e).map Nat.digitChar

/-- Print the decimal `m / 10^e` (sign, integer digits, and for `e > 0` a
point followed by exactly `e` fractional digits). -/
def printDec (m : ℤ) (e : ℕ) : List Char :=
  (if m < 0 then ['-'] else []) ++
  (if e = 0 then printNatChars m.natAbs
   else printNatChars (m.natAbs / 10 ^ e) ++ '.' :: printFrac (m.natAbs % 10 ^ e) e)

/-- Least `e` with `d ∣ 10^e`, when one exists (searching up to `d` suffices
for denominators of the form `2^a * 5^b`). -/
def decExp (d : ℕ) : Option ℕ :=
  (List.range (d + 1)).find? (fun e => decide (d ∣ 10 ^ e))

/-- Print a rational as a decimal numeral; rationals with no finite decimal
expansion (which do not arise from JavaScript numbers) print as a dummy. -/
def printNum (q : ℚ) : List Char :=
  match decExp q.den with
  | some e => printDec (q.num * (((10 ^ e : ℕ) / q.den : ℕ) : ℤ)) e
  | none => ['0']

mutual

def printJson : Json → List Char
  | .null => "null".data
  | .bool true => "true".data
  | .bool false => "false".data
  | .num q => printNum q
  | .str s => '"' :: (s ++ ['"'])
  | .arr xs => '[' :: (printElems xs ++ [']'])
  | .obj ms => '{' :: (printMembers ms ++ ['}'])

def printElems : List Json → List Char
  | [] => []
  | [x] => printJson x
  | x :: y :: xs => printJson x ++ ',' :: printElems (y :: xs)

def printMembers : List (List Char × Json) → List Char
  | [] => []
  | [(k, v)] => '"' :: (k ++ '"' :: ':' :: printJson v)
  | (k, v) :: m :: ms =>
      ('"' :: (k ++ '"' :: ':' :: printJson v)) ++ ',' :: printMembers (m :: ms)

end

mutual

/-- Nesting measure used to bound the parser's fuel. -/
def jsize : Json → ℕ
  | .null => 1
  | .bool _ => 1
  | .num _ => 1
  | .str _ => 1
  | .arr xs => 1 + lsize xs
  | .obj ms => 1 + msize ms

def lsize : List Json → ℕ
  | [] => 1
  | x :: xs => jsize x + lsize xs

def msize : List (List Char × Json) → ℕ
  | [] => 1
  | m :: ms => jsize m.2 + msize ms

end

/-- Characters that print into a JSON string without escaping. -/
def safeChar (c : Char) : Bool := c ≠ '"' && c ≠ '\\'

mutual

/-- The printable fragment: strings without quote/backslash characters and
numbers with a finite decimal expansion. -/
def safeJson : Json → Bool
  | .null => true
  | .bool _ => true
  | .num q => (decExp q.den).isSome
  | .str s => s.all safeChar
  | .arr xs => safeElems xs
  | .obj ms => safeMembers ms

def safeElems : List Json → Bool
  | [] => true
  | x :: xs => safeJson x && safeElems xs

def safeMembers : List (List Char × Json) → Bool
  | [] => true
  | m :: ms => m.1.all safeChar && safeJson m.2 && safeMembers ms

end

/-- Consume a maximal run of decimal digits, returning the accumulated value,
the number of digits consumed, and the rest of the input. -/
def parseDigits : List Char → ℕ → ℕ → ℕ × ℕ × List Char
  | [], acc, cnt => (acc, cnt, [])
  | c :: cs, acc, cnt =>
      if c.isDigit then parseDigits cs (acc * 10 + (c.toNat - 48)) (cnt + 1)
      else (acc, cnt, c :: cs)

/-- Consume a string body up to the closing quote (no escape handling:
the printable fragment contains none). -/
def parseStrBody : List Char → Option (List Char × List Char)
  | [] => none
  | c :: cs =>
      if c = '"' then some ([], cs)
      else (parseStrBody cs).map (fun r => (c :: r.1, r.2))

/-- Apply an optional leading minus sign. -/
def mkNum (neg : Bool) (q : ℚ) : ℚ := if neg then -q else q

/-- After the integer part: an optional point followed by more digits. -/
def parseFracPart (neg : Bool) (i : ℕ) (rest : List Char) :
    Option (Json × List Char) :=
  match rest with
  | [] => some (.num (mkNum neg (i : ℚ)), [])
  | c :: cs2 =>
      if c = '.' then
        match cs2 with
        | [] => none
        | c2 :: _ =>
            if c2.isDigit then
              match parseDigits cs2 0 0 with
              | (f, cnt, rest3) =>
                  some (.num (mkNum neg ((i : ℚ) + (f : ℚ) / 10 ^ cnt)), rest3)
            else none
      else some (.num (mkNum neg (i : ℚ)), c :: cs2)

/-- Parse digits and an optional fraction part, after the sign. -/
def parseNumCore (neg : Bool) (cs : List Char) : Option (Json × List Char) :=
  match cs with
  | [] => none
  | c :: _ =>
      if c.isDigit then
        match parseDigits cs 0 0 with
        | (i, _, rest) => parseFracPart neg i rest
      else none

/-- Parse a JSON number (optional sign, digits, optional fraction). -/
def parseNum (cs : List Char) : Option (Json × List Char) :=
  match cs with
  | [] => none
  | c :: rest => if c = '-' then parseNumCore true rest else parseNumCore false cs

mutual

def parseVal : ℕ → List Char → Option (Json × List Char)
  | 0, _ => none
  | fuel + 1, cs =>
      match cs with
      | [] => none
      | c :: rest =>
          if c = 'n' then
            match rest with
            | 'u' :: 'l' :: 'l' :: r => some (.null, r)
            | _ => none
          else if c = 't' then
            match rest with
            | 'r' :: 'u' :: 'e' :: r => some (.bool true, r)
            | _ => none
          else if c = 'f' then
            match rest with
            | 'a' :: 'l' :: 's' :: 'e' :: r => some (.bool false, r)
            | _ => none
          else if c = '"' then
            (parseStrBody rest).map (fun r => (.str r.1, r.2))
          else if c = '[' then
            match rest with
            | [] => none
            | c2 :: r2 =>
                if c2 = ']' then some (.arr [], r2)
                else
                  match parseElems fuel rest with
                  | none => none
                  | some (xs, r) =>
                      match r with
                      | [] => none
                      | c3 :: r3 => if c3 = ']' then some (.arr xs, r3) else none
          else if c = '{' then
            match rest with
            | [] => none
            | c2 :: r2 =>
                if c2 = '}' then some (.obj [], r2)
                else
                  match parseMembers fuel rest with
                  | none => none
                  | some (ms, r) =>
                      match r with
                      | [] => none
                      | c3 :: r3 => if c3 = '}' then some (.obj ms, r3) else none
          else parseNum cs

def parseElems : ℕ → List Char → Option (List Json × List Char)
  | 0, _ => none
  | fuel + 1, cs =>
      match parseVal fuel cs with
      | none => none
      | some (x, rest) =>
          match rest with
          | [] => some ([x], [])
          | c :: rest' =>
              if c = ',' then (parseElems fuel rest').map (fun r => (x :: r.1, r.2))
              else some ([x], c :: rest')

def parseMembers : ℕ → List Char → Option (List (List Char × Json) × List Char)
  | 0, _ => none
  | fuel + 1, cs =>
      match cs with
      | [] => none
      | c :: rest =>
          if c = '"' then
            match parseStrBody rest with
            | none => none
            | some (key, rest2) =>
                match rest2 with
                | [] => none
                | c2 :: rest3 =>
                    if c2 = ':' then
                      match parseVal fuel rest3 with
                      | none => none
                      | some (v, rest4) =>
                          match rest4 with
                          | [] => some ([(key, v)], [])
                          | c3 :: rest5 =>
                              if c3 = ',' then
                                (parseMembers fuel rest5).map
                                  (fun r => ((key, v) :: r.1, r.2))
                              else some ([(key, v)], c3 :: rest5)
                    else none
          else none

end

/-- `JSON.stringify` on the model. -/
def stringify (j : Json) : String := ⟨printJson j⟩

/-- `JSON.parse` on the model: `none` is a thrown `SyntaxError`.  The whole
input must be consumed. -/
def parseJson (s : String) : Option Json :=
  match parseVal (s.data.length + 1) s.data with
  | some (j, []) => some j
  | _ => none

/-- Property lookup on a parsed object (`parsed.field`). -/
def objGet (j : Json) (key : List Char) : Option Json :=
  match j with
  | .obj ms => (ms.find? (fun m => m.1 = key)).map (fun m => m.2)
  | _ => none

/-- Read a JSON number as a non-negative integer count. -/
def asNat (j : Json) : Option ℕ :=
  match j with
  | .num q => if q.den = 1 ∧ 0 ≤ q.num then some q.num.toNat else none
  | _ => none

/-- Read a JSON number as an integer. -/
def asInt (j : Json) : Option ℤ :=
  match j with
  | .num q => if q.den = 1 then some q.num else none
  | _ => none

/-- Read a JSON number. -/
def asNum (j : Json) : Option ℚ :=
  match j with
  | .num q => some q
  | _ => none

/-- Read a JSON array's elements. -/
def asArr (j : Json) : Option (List Json) :=
  match j with
  | .arr xs => some xs
  | _ => none

namespace Part003

/-! ### Persistence and the event loop of `part_003` -/

/-- The `position.toJSON()` object `{lat, lng}` of a trail point. -/
def latLngJson (p : ℚ × ℚ) : Json :=
  .obj [("lat".data, .num p.1), ("lng".data, .num p.2)]

/-- The object handed to `JSON.stringify` by `saveGameProgress`. -/
def snapshotJson (st : GameState) : Json :=
  .obj [("totalScore".data, .num (st.totalScore : ℚ)),
        ("collectedCoins".data, .num (st.collectedCoins : ℚ)),
        ("totalMoves".data, .num (st.totalMoves : ℚ)),
        ("playerTrail".data, .arr (st.playerTrail.map latLngJson))]

/-- `saveGameProgress()`: `localStorage.setItem("gameState", JSON.stringify({...}))`. -/
def saveGameProgress (st : GameState) : GameState :=
  { st with store := some (stringify (snapshotJson st)) }

/-- Decode one trail entry `{lat, lng}` back into a coordinate. -/
def decodeLatLng (j : Json) : Option (ℚ × ℚ) := do
  let lat ← objGet j ("lat".data) >>= asNum
  let lng ← objGet j ("lng".data) >>= asNum
  pure (lat, lng)

/-- `loadSavedGame()`: read `localStorage["gameState"]`; nothing stored (or
the empty string, which is falsy) leaves the state untouched; otherwise
`JSON.parse` the string and assign the four snapshot fields.  `none` models
an exception escaping the function: `JSON.parse` throws on malformed input,
and a snapshot of the wrong shape makes the destructuring /
`savedTrail.map` / `leaflet.latLng` calls throw.  The cache registry is not
read from the snapshot. -/
def loadSavedGame (st : GameState) : Option GameState :=
  match st.store with
  | none => some st
  | some s =>
      if s.data = [] then some st
      else do
        let j ← parseJson s
        let score ← objGet j ("totalScore".data) >>= asNat
        let coins ← objGet j ("collectedCoins".data) >>= asNat
        let moves ← objGet j ("totalMoves".data) >>= asNat
        let trailJ ← objGet j ("playerTrail".data) >>= asArr
        let trail ← trailJ.mapM decodeLatLng
        pure { st with
               totalScore := score, collectedCoins := coins,
               totalMoves := moves, playerTrail := trail }

/-- `movePlayerTo(latitude, longitude)`: set the marker and pan, extend the
trail, bump the move counter, regenerate nearby caches (with the source's
constants), and persist. -/
def movePlayerTo (rand : ℕ → ℚ) (lat lng : ℚ) (s : GameState × ℕ) :
    GameState × ℕ :=
  let st := s.1
  let newPos : ℚ × ℚ := (lat, lng)
  let st1 := { st with
               playerPos := newPos,
               playerTrail := st.playerTrail ++ [newPos],
               totalMoves := st.totalMoves + 1 }
  let w := regenerateNearbyCaches CACHE_ZONE_RADIUS SPAWN_PROBABILITY rand newPos
             ⟨st1.caches, st1.factory, s.2⟩
  let st2 := { st1 with caches := w.caches, factory := w.factory }
  (saveGameProgress st2, w.k)

/-- The user-triggered events of one session: the four movement buttons, a
geolocation position update, the two popup buttons of a cache cell, and the
reset button (with the confirmation accepted). -/
inductive Event where
  | btnNorth : Event
  | btnSouth : Event
  | btnWest : Event
  | btnEast : Event
  | geo : ℚ → ℚ → Event
  | collect : ℤ → ℤ → Event
  | deposit : ℤ → ℤ → Event
  | reset : Event

/-- Dispatch of one event, exactly as the registered handlers do. -/
def step (rand : ℕ → ℚ) (s : GameState × ℕ) (e : Event) : GameState × ℕ :=
  match e with
  | .btnNorth => movePlayerTo rand (s.1.playerPos.1 + MOVE_DELTA) s.1.playerPos.2 s
  | .btnSouth => movePlayerTo rand (s.1.playerPos.1 - MOVE_DELTA) s.1.playerPos.2 s
  | .btnWest => movePlayerTo rand s.1.playerPos.1 (s.1.playerPos.2 - MOVE_DELTA) s
  | .btnEast => movePlayerTo rand s.1.playerPos.1 (s.1.playerPos.2 + MOVE_DELTA) s
  | .geo lat lng => movePlayerTo rand lat lng s
  | .collect x y => (collectHandler s.1 x y, s.2)
  | .deposit x y => (depositHandler s.1 x y, s.2)
  | .reset => (resetHandler s.1, s.2)

/-- The state after a session's worth of events, starting from script start. -/
def runEvents (rand : ℕ → ℚ) (es : List Event) : GameState × ℕ :=
  es.foldl (step rand) (initState, 0)

end Part003

namespace Part002

/-! ## Embedding of `src/unnamed/part_002` -/

/-- `type Coin = { i, j, serial }`. -/
structure Coin where
  i : ℤ
  j : ℤ
  serial : ℕ
deriving DecidableEq

/-- `createCoins(i, j, count)` with the module-global `coinIdCounter`
threaded explicitly: each array element takes `serial: coinIdCounter++` in
order.  Returns the coins and the advanced counter. -/
def createCoins (i j : ℤ) (count : ℕ) (ctr : ℕ) : List Coin × ℕ :=
  ((List.range count).map (fun t => ⟨i, j, ctr + t⟩), ctr + count)

/-- All coins minted by a sequence of `createCoins` calls (cell and count per
call) starting from counter `ctr`, flattened in call order. -/
def mintAll : List (ℤ × ℤ × ℕ) → ℕ → List Coin × ℕ
  | [], ctr => ([], ctr)
  | (i, j, n) :: reqs, ctr =>
      let r1 := createCoins i j n ctr
      let r2 := mintAll reqs r1.2
      (r1.1 ++ r2.1, r2.2)

end Part002

namespace Part001

/-! ## Embedding of `src/unnamed/part_001` -/

/-- `type Coin = { i, j, serial }`. -/
structure Coin where
  i : ℤ
  j : ℤ
  serial : ℕ
deriving DecidableEq

/-- `createCoins(i, j, count)`; identical to `part_002`'s, with the global
`coinIdCounter` threaded explicitly. -/
def createCoins (i j : ℤ) (count : ℕ) (ctr : ℕ) : List Coin × ℕ :=
  ((List.range count).map (fun t => ⟨i, j, ctr + t⟩), ctr + count)

/-- `class Cache implements Memento { coins; memento?; i; j }`. -/
structure Cache where
  i : ℤ
  j : ℤ
  coins : List Coin
  memento : Option String
deriving DecidableEq

/-- The `Cache` constructor: coins from `createCoins(i, j,
Math.floor(Math.random() * 5) + 1)`, advancing the serial counter. -/
def Cache.init (i j : ℤ) (r : ℚ) (ctr : ℕ) : Cache × ℕ :=
  let res := createCoins i j ((⌊r * 5⌋).toNat + 1) ctr
  (⟨i, j, res.1, none⟩, res.2)

/-- The JSON object `JSON.stringify` produces for one coin (insertion order
`i`, `j`, `serial`). -/
def coinJson (c : Coin) : Json :=
  .obj [("i".data, .num (c.i : ℚ)), ("j".data, .num (c.j : ℚ)),
        ("serial".data, .num (c.serial : ℚ))]

/-- `toMemento()`: `JSON.stringify(this.coins)`. -/
def Cache.toMemento (c : Cache) : String :=
  stringify (.arr (c.coins.map coinJson))

/-- Decode one coin object `{i, j, serial}`. -/
def decodeCoin (j : Json) : Option Coin := do
  let ci ← objGet j ("i".data) >>= asInt
  let cj ← objGet j ("j".data) >>= asInt
  let cs ← objGet j ("serial".data) >>= asNat
  pure ⟨ci, cj, cs⟩

/-- `fromMemento(memento)`: `this.coins = JSON.parse(memento)` — the decoded
coin sequence replaces the zone's coins wholesale; `none` models the
`JSON.parse` exception. -/
def Cache.fromMemento (c : Cache) (m : String) : Option Cache := do
  let j ← parseJson m
  let xs ← asArr j
  let cs ← xs.mapM decodeCoin
  pure { c with coins := cs }

/-- `collectCoins()`: returns the coin count and empties the cache. -/
def Cache.collectCoins (c : Cache) : ℕ × Cache :=
  (c.coins.length, { c with coins := [] })

/-- `addCoins(newCoins)`: appends to the coin sequence. -/
def Cache.addCoins (c : Cache) (newCoins : List Coin) : Cache :=
  { c with coins := c.coins ++ newCoins }

/-- The mutable world of `part_001` touched by `spawnCache`: `cacheMap`, the
location factory, the global serial counter, and the RNG cursor. -/
structure World where
  cacheMap : List ((ℤ × ℤ) × Cache)
  factory : Factory
  ctr : ℕ
  k : ℕ
deriving DecidableEq

/-- `spawnCache(i, j)`: `cache = cacheMap.get(key) ?? new Cache(i, j)` (the
constructor runs only when the key is absent, consuming one random draw and
advancing the serial counter); `cacheMap.set(key, cache)`; then the
rectangle bounds go through the location factory. -/
def spawnCache (rand : ℕ → ℚ) (i j : ℤ) (w : World) : World :=
  let w1 :=
    match mapGet w.cacheMap (i, j) with
    | some c => { w with cacheMap := mapSet w.cacheMap (i, j) c }
    | none =>
        let res := Cache.init i j (rand w.k) w.ctr
        { w with
          cacheMap := mapSet w.cacheMap (i, j) res.1,
          ctr := res.2, k := w.k + 1 }
  let p1 := getPosition w1.factory i j
  let p2 := getPosition p1.2 (i + 1) (j + 1)
  { w1 with factory := p2.2 }

end Part001

/-! ## Concrete states used by witnesses -/

/-- A zone at cell `(2, 3)` holding two coins, for exercising the deposit
postcondition. -/
def zoneW8 : Part003.CacheZone := ⟨2, 3, [⟨2, 3, 0⟩, ⟨2, 3, 1⟩]⟩

/-- A state carrying 5 coins whose registry holds `zoneW8`. -/
def stateW8 : Part003.GameState :=
  { Part003.initState with
    collectedCoins := 5, caches := [((2, 3), zoneW8)] }

/-- A state with a non-trivial score, trail and registry, for exercising the
save/load round trip (integer-valued coordinates keep the witness
kernel-evaluable). -/
def stateW4 : Part003.GameState :=
  { Part003.initState with
    totalScore := 3, collectedCoins := 1, totalMoves := 2,
    playerTrail := [((3 : ℚ), (0 : ℚ)), ((-2 : ℚ), (1 : ℚ))],
    caches := [((0, 0), ⟨0, 0, [⟨0, 0, 0⟩]⟩)] }

/-! ## Stop conditions for the round-trip lemmas

A printed number is read back exactly when the remaining input does not
continue it; inside arrays and objects the remaining input starts with a
separator or closer, which satisfies these. -/

/-- The input does not start with a digit. -/
def digitStop (cs : List Char) : Bool :=
  match cs with
  | [] => true
  | c :: _ => !c.isDigit

/-- The input does not continue a number: no digit and no decimal point. -/
def numStop (cs : List Char) : Bool :=
  match cs with
  | [] => true
  | c :: _ => !c.isDigit && c ≠ '.'

/-- The input does not continue a number or an element list. -/
def listStop (cs : List Char) : Bool :=
  match cs with
  | [] => true
  | c :: _ => !c.isDigit && c ≠ '.' && c ≠ ','

/-! # Theorems -/

/-! ## Association-list map lemmas -/

theorem mapGet_nil {α β : Type} [DecidableEq α] (k : α) :
    mapGet ([] : List (α × β)) k = none := by
  simp [mapGet, List.find?]

theorem mapGet_mapSet_self {α β : Type} [DecidableEq α]
    (m : List (α × β)) (k : α) (v : β) : mapGet (mapSet m k v) k = some v := by
  induction m with
  | nil => simp [mapGet, mapSet, List.find?]
  | cons e rest ih =>
    by_cases h : e.1 = k
    · simp [mapGet, mapSet, h, List.find?]
    · simpa [mapGet, mapSet, h, List.find?] using ih

theorem mapGet_mapSet_ne {α β : Type} [DecidableEq α]
    (m : List (α × β)) (k k' : α) (v : β) (h : k' ≠ k) :
    mapGet (mapSet m k v) k' = mapGet m k' := by
  induction m with
  | nil => simp [mapGet, mapSet, List.find?, Ne.symm h]
  | cons e rest ih =>
    obtain ⟨a, b⟩ := e
    by_cases he : a = k
    · subst he
      simp [mapGet, mapSet, List.find?, Ne.symm h]
    · by_cases he' : a = k'
      · simp [mapGet, mapSet, he, List.find?, he', h]
      · simpa [mapGet, mapSet, he, List.find?, he'] using ih

/-- Re-inserting the value already stored at a key leaves the map unchanged. -/
theorem mapSet_get_self {α β : Type} [DecidableEq α]
    (m : List (α × β)) (k : α) (v : β) (h : mapGet m k = some v) :
    mapSet m k v = m := by
  induction m with
  | nil => simp [mapGet, List.find?] at h
  | cons e rest ih =>
    obtain ⟨a, b⟩ := e
    by_cases he : a = k
    · subst he
      simp [mapGet, List.find?] at h
      simp [mapSet, h]
    · simp [mapGet, List.find?, he] at h
      have h' : mapGet rest k = some v := by
        simpa [mapGet] using h
      simpa [mapSet, he] using ih h'

/-- Setting an absent key appends it, so the key list grows at the end. -/
theorem mapSet_keys_of_absent {α β : Type} [DecidableEq α]
    (m : List (α × β)) (k : α) (v : β) (h : mapGet m k = none) :
    (mapSet m k v).map Prod.fst = m.map Prod.fst ++ [k] := by
  induction m with
  | nil => simp [mapSet]
  | cons e rest ih =>
    obtain ⟨a, b⟩ := e
    by_cases he : a = k
    · simp [mapGet, List.find?, he] at h
    · simp [mapGet, List.find?, he] at h
      have h' : mapGet rest k = none := by
        simpa [mapGet] using h
      simp [mapSet, he, ih h']

/-! ## Flyweight factory lemmas -/

theorem factoryWF_nil : FactoryWF [] := by
  intro k v h
  simp [mapGet, List.find?] at h

theorem getPosition_val {f : Factory} (hf : FactoryWF f) (x y : ℤ) :
    (getPosition f x y).1 =
      (INITIAL_POSITION.1 + x * GRID_STEP, INITIAL_POSITION.2 + y * GRID_STEP) := by
  unfold getPosition
  cases hg : mapGet f (x, y) with
  | none => simp
  | some v => simpa using hf (x, y) v hg

theorem getPosition_WF {f : Factory} (hf : FactoryWF f) (x y : ℤ) :
    FactoryWF (getPosition f x y).2 := by
  unfold getPosition
  cases hg : mapGet f (x, y) with
  | none =>
    intro k v h
    by_cases hk : k = (x, y)
    · subst hk
      rw [mapGet_mapSet_self] at h
      simpa using h.symm
    · rw [mapGet_mapSet_ne _ _ _ _ hk] at h
      exact hf k v h
  | some v => exact hf

/-- After a lookup the key is cached with the returned value. -/
theorem getPosition_mem_self (f : Factory) (x y : ℤ) :
    mapGet (getPosition f x y).2 (x, y) = some (getPosition f x y).1 := by
  unfold getPosition
  cases hg : mapGet f (x, y) with
  | none => simp [mapGet_mapSet_self]
  | some v => simpa using hg

/-- A lookup never evicts an existing entry. -/
theorem getPosition_preserve (f : Factory) (x y : ℤ) (k : ℤ × ℤ) (v : ℚ × ℚ)
    (h : mapGet f k = some v) : mapGet (getPosition f x y).2 k = some v := by
  unfold getPosition
  cases hg : mapGet f (x, y) with
  | none =>
    by_cases hk : k = (x, y)
    · subst hk
      rw [hg] at h
      exact absurd h (by simp)
    · simpa [mapGet_mapSet_ne _ _ _ _ hk] using h
  | some w => simpa using h

/-- A lookup whose key is already cached changes nothing. -/
theorem getPosition_idem (f : Factory) (x y : ℤ) (v : ℚ × ℚ)
    (h : mapGet f (x, y) = some v) : getPosition f x y = (v, f) := by
  unfold getPosition
  rw [h]

/-! ## Claim C5: collect-then-deposit round trip -/

/-- Claim C5: for every cache zone holding `K` coins, collecting all of them
(which empties the zone and reports `K`) and then depositing `K` freshly
minted coins leaves the zone's coin count at `K` again — in `part_003`
(`CacheZone.retrieveCoins`/`addCoins` with `generateCoins`) and in `part_001`
(`Cache.collectCoins`/`addCoins` with `createCoins`, for any serial-counter
state). -/
theorem c5_collect_then_deposit_conserves_count :
    (∀ z : Part003.CacheZone,
        ((z.retrieveCoins.2).addCoins
            (Part003.generateCoins z.x z.y z.retrieveCoins.1)).storedCoins.length =
          z.storedCoins.length) ∧
    (∀ (c : Part001.Cache) (ctr : ℕ),
        ((c.collectCoins.2).addCoins
            (Part001.createCoins c.i c.j c.collectCoins.1 ctr).1).coins.length =
          c.coins.length) := by
  constructor
  · intro z
    simp [Part003.CacheZone.retrieveCoins, Part003.CacheZone.addCoins,
      Part003.generateCoins]
  · intro c ctr
    simp [Part001.Cache.collectCoins, Part001.Cache.addCoins, Part001.createCoins]

/-! ## Claim C8: deposit postcondition -/

/-- Claim C8: depositing `K > 0` carried coins into the registered cache at
`(x, y)` holding `C` coins appends `K` freshly minted coins whose origin cell
is `(x, y)` (no validation against the coins originally collected), leaving
`C + K` coins in the zone, resets the carried count to `0`, and adds exactly
`K` to the score. -/
theorem c8_deposit_postcondition (st : Part003.GameState) (x y : ℤ)
    (z : Part003.CacheZone) (hz : mapGet st.caches (x, y) = some z)
    (hK : 0 < st.collectedCoins) :
    mapGet (Part003.depositHandler st x y).caches (x, y) =
        some (z.addCoins (Part003.generateCoins x y st.collectedCoins)) ∧
    (z.addCoins (Part003.generateCoins x y st.collectedCoins)).storedCoins.length =
        z.storedCoins.length + st.collectedCoins ∧
    (∀ co ∈ Part003.generateCoins x y st.collectedCoins, co.x = x ∧ co.y = y) ∧
    (Part003.depositHandler st x y).collectedCoins = 0 ∧
    (Part003.depositHandler st x y).totalScore = st.totalScore + st.collectedCoins := by
  refine ⟨?_, ?_, ?_, ?_, ?_⟩
  · simp [Part003.depositHandler, hz, hK, mapGet_mapSet_self]
  · simp [Part003.CacheZone.addCoins, Part003.generateCoins]
  · intro co hco
    simp [Part003.generateCoins] at hco
    obtain ⟨t, -, rfl⟩ := hco
    exact ⟨rfl, rfl⟩
  · simp [Part003.depositHandler, hz, hK]
  · simp [Part003.depositHandler, hz, hK]

/-- Witness for C8 at a concrete state: a cache at `(2, 3)` with 2 coins and
a player carrying 5 coins. -/
theorem c8_deposit_postcondition_witness :
    (mapGet stateW8.caches (2, 3) = some zoneW8 ∧ 0 < stateW8.collectedCoins) ∧
    (mapGet (Part003.depositHandler stateW8 2 3).caches (2, 3) =
        some (zoneW8.addCoins (Part003.generateCoins 2 3 stateW8.collectedCoins)) ∧
      (zoneW8.addCoins (Part003.generateCoins 2 3 stateW8.collectedCoins)).storedCoins.length =
        zoneW8.storedCoins.length + stateW8.collectedCoins ∧
      (∀ co ∈ Part003.generateCoins 2 3 stateW8.collectedCoins, co.x = 2 ∧ co.y = 3) ∧
      (Part003.depositHandler stateW8 2 3).collectedCoins = 0 ∧
      (Part003.depositHandler stateW8 2 3).totalScore =
        stateW8.totalScore + stateW8.collectedCoins) :=
  ⟨⟨by decide, by decide⟩,
    c8_deposit_postcondition stateW8 2 3 zoneW8 (by decide) (by decide)⟩

/-! ## Claim C7: the coordinate factory is pure and memoized -/

/-- Claim C7: for all integer pairs, `getPosition` (`part_003`; identically
`getLocation` in `part_001`) returns the fixed origin offset by
`(x * GRID_STEP, y * GRID_STEP)`, preserves the memo-table invariant, and a
repeated call returns the same coordinate value without changing the table.
Totality over all of `ℤ × ℤ` is immediate from the type. -/
theorem c7_getCoordinate_pure_memoized (f : Factory) (x y : ℤ) (hf : FactoryWF f) :
    (getPosition f x y).1 =
        (INITIAL_POSITION.1 + x * GRID_STEP, INITIAL_POSITION.2 + y * GRID_STEP) ∧
    FactoryWF (getPosition f x y).2 ∧
    (getPosition (getPosition f x y).2 x y).1 = (getPosition f x y).1 ∧
    (getPosition (getPosition f x y).2 x y).2 = (getPosition f x y).2 := by
  refine ⟨getPosition_val hf x y, getPosition_WF hf x y, ?_, ?_⟩
  · rw [getPosition_idem _ x y _ (getPosition_mem_self f x y)]
  · rw [getPosition_idem _ x y _ (getPosition_mem_self f x y)]

/-- Witness for C7 at the empty factory and the pair `(5, -7)`. -/
theorem c7_getCoordinate_pure_memoized_witness :
    FactoryWF ([] : Factory) ∧
    ((getPosition [] 5 (-7)).1 =
        (INITIAL_POSITION.1 + 5 * GRID_STEP, INITIAL_POSITION.2 + (-7) * GRID_STEP) ∧
      FactoryWF (getPosition [] 5 (-7)).2 ∧
      (getPosition (getPosition [] 5 (-7)).2 5 (-7)).1 = (getPosition [] 5 (-7)).1 ∧
      (getPosition (getPosition [] 5 (-7)).2 5 (-7)).2 = (getPosition [] 5 (-7)).2) :=
  ⟨factoryWF_nil, c7_getCoordinate_pure_memoized [] 5 (-7) factoryWF_nil⟩

/-! ## Claim C2: ensureCache is idempotent -/

/-- After `getPosition`, the looked-up key is cached (`isSome` form). -/
theorem getPosition_mem_isSome (f : Factory) (x y : ℤ) :
    (mapGet (getPosition f x y).2 (x, y)).isSome := by
  rw [getPosition_mem_self]
  rfl

/-- `getPosition` never evicts a cached key (`isSome` form). -/
theorem getPosition_preserve_isSome (f : Factory) (x y : ℤ) (k : ℤ × ℤ)
    (h : (mapGet f k).isSome) : (mapGet (getPosition f x y).2 k).isSome := by
  obtain ⟨v, hv⟩ := Option.isSome_iff_exists.mp h
  rw [getPosition_preserve f x y k v hv]
  rfl

/-- A lookup whose key is cached leaves the factory unchanged. -/
theorem getPosition_snd_of_isSome (f : Factory) (x y : ℤ)
    (h : (mapGet f (x, y)).isSome) : (getPosition f x y).2 = f := by
  obtain ⟨v, hv⟩ := Option.isSome_iff_exists.mp h
  rw [getPosition_idem f x y v hv]

/-- `createCache` always leaves the cell registered, with the pre-existing
zone if there was one and a freshly rolled zone otherwise. -/
theorem createCache_mem (rand : ℕ → ℚ) (x y : ℤ) (w : Part003.RegenState) :
    mapGet (Part003.createCache rand x y w).caches (x, y) =
      some (match mapGet w.caches (x, y) with
            | some z => z
            | none => Part003.CacheZone.init x y (rand w.k)) := by
  unfold Part003.createCache
  cases hg : mapGet w.caches (x, y) with
  | some z => simp [hg]
  | none => simp [hg, mapGet_mapSet_self]

/-- `createCache` on a state where the cell is registered and both rectangle
corners are memoized is the identity. -/
theorem createCache_of_present (rand : ℕ → ℚ) (x y : ℤ) (w : Part003.RegenState)
    (hc : (mapGet w.caches (x, y)).isSome)
    (hfa : (mapGet w.factory (x, y)).isSome)
    (hfb : (mapGet w.factory (x + 1, y + 1)).isSome) :
    Part003.createCache rand x y w = w := by
  obtain ⟨z, hz⟩ := Option.isSome_iff_exists.mp hc
  unfold Part003.createCache
  rw [hz]
  simp only [getPosition_snd_of_isSome _ _ _ hfa,
    getPosition_snd_of_isSome _ _ _ hfb]

/-- After `createCache`, both rectangle corners are memoized. -/
theorem createCache_factory_mem (rand : ℕ → ℚ) (x y : ℤ) (w : Part003.RegenState) :
    (mapGet (Part003.createCache rand x y w).factory (x, y)).isSome ∧
    (mapGet (Part003.createCache rand x y w).factory (x + 1, y + 1)).isSome := by
  unfold Part003.createCache
  cases hg : mapGet w.caches (x, y) with
  | some z =>
    exact ⟨getPosition_preserve_isSome _ _ _ _ (getPosition_mem_isSome _ _ _),
      getPosition_mem_isSome _ _ _⟩
  | none =>
    exact ⟨getPosition_preserve_isSome _ _ _ _ (getPosition_mem_isSome _ _ _),
      getPosition_mem_isSome _ _ _⟩

/-- A second `createCache` for the same cell is a no-op. -/
theorem createCache_idem (rand : ℕ → ℚ) (x y : ℤ) (w : Part003.RegenState) :
    Part003.createCache rand x y (Part003.createCache rand x y w) =
      Part003.createCache rand x y w := by
  refine createCache_of_present rand x y _ ?_ ?_ ?_
  · rw [createCache_mem]
    rfl
  · exact (createCache_factory_mem rand x y w).1
  · exact (createCache_factory_mem rand x y w).2

/-- `spawnCache` always leaves the cell registered. -/
theorem spawnCache_mem_isSome (rand : ℕ → ℚ) (i j : ℤ) (w : Part001.World) :
    (mapGet (Part001.spawnCache rand i j w).cacheMap (i, j)).isSome := by
  unfold Part001.spawnCache
  cases hg : mapGet w.cacheMap (i, j) with
  | some c => simp [mapGet_mapSet_self]
  | none => simp [mapGet_mapSet_self]

/-- After `spawnCache`, both rectangle corners are memoized. -/
theorem spawnCache_factory_mem (rand : ℕ → ℚ) (i j : ℤ) (w : Part001.World) :
    (mapGet (Part001.spawnCache rand i j w).factory (i, j)).isSome ∧
    (mapGet (Part001.spawnCache rand i j w).factory (i + 1, j + 1)).isSome := by
  unfold Part001.spawnCache
  cases hg : mapGet w.cacheMap (i, j) with
  | some c =>
    exact ⟨getPosition_preserve_isSome _ _ _ _ (getPosition_mem_isSome _ _ _),
      getPosition_mem_isSome _ _ _⟩
  | none =>
    exact ⟨getPosition_preserve_isSome _ _ _ _ (getPosition_mem_isSome _ _ _),
      getPosition_mem_isSome _ _ _⟩

/-- `spawnCache` on a state where the cell is registered and both rectangle
corners are memoized is the identity (the `??` operator skips construction
and `Map.set` re-inserts the same zone). -/
theorem spawnCache_of_present (rand : ℕ → ℚ) (i j : ℤ) (w : Part001.World)
    (hc : (mapGet w.cacheMap (i, j)).isSome)
    (hfa : (mapGet w.factory (i, j)).isSome)
    (hfb : (mapGet w.factory (i + 1, j + 1)).isSome) :
    Part001.spawnCache rand i j w = w := by
  obtain ⟨c, hcv⟩ := Option.isSome_iff_exists.mp hc
  unfold Part001.spawnCache
  rw [hcv]
  simp only [mapSet_get_self _ _ _ hcv]
  simp only [getPosition_snd_of_isSome _ _ _ hfa,
    getPosition_snd_of_isSome _ _ _ hfb]

/-- A second `spawnCache` for the same cell is a no-op. -/
theorem spawnCache_idem (rand : ℕ → ℚ) (i j : ℤ) (w : Part001.World) :
    Part001.spawnCache rand i j (Part001.spawnCache rand i j w) =
      Part001.spawnCache rand i j w := by
  refine spawnCache_of_present rand i j _ (spawnCache_mem_isSome rand i j w) ?_ ?_
  · exact (spawnCache_factory_mem rand i j w).1
  · exact (spawnCache_factory_mem rand i j w).2

/-- Claim C2: `ensureCache` is idempotent.  Calling `part_003`'s
`createCache` (resp. `part_001`'s `spawnCache`) `n ≥ 1` times for the same
cell produces the same total state as calling it once, and the registry then
holds exactly the zone fixed at the first call — the pre-existing zone if the
cell was registered, otherwise one freshly rolled from the first call's
random draw.  In particular the zone's coin count is never re-rolled. -/
theorem c2_ensureCache_idempotent (rand : ℕ → ℚ) (x y : ℤ)
    (w : Part003.RegenState) (w1 : Part001.World) (n : ℕ) (hn : 1 ≤ n) :
    ((Part003.createCache rand x y)^[n] w = Part003.createCache rand x y w ∧
      mapGet ((Part003.createCache rand x y)^[n] w).caches (x, y) =
        some (match mapGet w.caches (x, y) with
              | some z => z
              | none => Part003.CacheZone.init x y (rand w.k))) ∧
    (Part001.spawnCache rand x y)^[n] w1 = Part001.spawnCache rand x y w1 := by
  obtain ⟨m, rfl⟩ := Nat.exists_eq_add_of_le hn
  have h3 : (Part003.createCache rand x y)^[1 + m] w =
      Part003.createCache rand x y w := by
    rw [Nat.add_comm, Function.iterate_add_apply, Function.iterate_one]
    exact Function.iterate_fixed (createCache_idem rand x y w) m
  refine ⟨⟨h3, ?_⟩, ?_⟩
  · rw [h3]
    exact createCache_mem rand x y w
  · rw [Nat.add_comm, Function.iterate_add_apply, Function.iterate_one]
    exact Function.iterate_fixed (spawnCache_idem rand x y w1) m

/-- Witness for C2: three calls on initially empty worlds for cell `(0, 0)`
with a constant zero random stream. -/
theorem c2_ensureCache_idempotent_witness :
    1 ≤ 3 ∧
    (((Part003.createCache (fun _ => 0) 0 0)^[3] ⟨[], [], 0⟩ =
        Part003.createCache (fun _ => 0) 0 0 ⟨[], [], 0⟩ ∧
      mapGet ((Part003.createCache (fun _ => 0) 0 0)^[3]
          (⟨[], [], 0⟩ : Part003.RegenState)).caches (0, 0) =
        some (match mapGet (⟨[], [], 0⟩ : Part003.RegenState).caches (0, 0) with
              | some z => z
              | none => Part003.CacheZone.init 0 0 ((fun _ => (0 : ℚ)) 0))) ∧
      (Part001.spawnCache (fun _ => 0) 0 0)^[3] ⟨[], [], 0, 0⟩ =
        Part001.spawnCache (fun _ => 0) 0 0 ⟨[], [], 0, 0⟩) :=
  ⟨by decide, c2_ensureCache_idempotent (fun _ => 0) 0 0 ⟨[], [], 0⟩
    ⟨[], [], 0, 0⟩ 3 (by decide)⟩

/-! ## Claim C1: coin serial freshness -/

/-- The serials minted by a request sequence starting at counter `ctr` are
exactly the consecutive block `[ctr, ctr + total)`. -/
theorem mintAll_serials (reqs : List (ℤ × ℤ × ℕ)) (ctr : ℕ) :
    (Part002.mintAll reqs ctr).1.map Part002.Coin.serial =
      List.range' ctr ((reqs.map (fun r => r.2.2)).sum) := by
  induction reqs generalizing ctr with
  | nil => simp [Part002.mintAll]
  | cons r reqs ih =>
    obtain ⟨i, j, n⟩ := r
    have hc : ((Part002.createCoins i j n ctr).1).map Part002.Coin.serial =
        List.range' ctr n := by
      simp [Part002.createCoins, List.range'_eq_map_range]
    have hs : (Part002.createCoins i j n ctr).2 = ctr + n := rfl
    simp only [Part002.mintAll, List.map_append, List.map_cons, List.sum_cons]
    rw [hc, hs, ih]
    have h := List.range'_append ctr n ((reqs.map (fun r => r.2.2)).sum) 1
    simp only [one_mul] at h
    rw [Nat.add_comm n ((reqs.map (fun r => r.2.2)).sum)]
    exact h

/-- Counterexample to C1 as stated: `part_003`'s coin generator
`generateCoins` assigns per-call positional ids, so the coin minted for cell
`(0, 0)` and the coin minted by a later call for cell `(1, 1)` both carry
serial `0` — two minted coins from different cells share a serial. -/
theorem c1_counterexample :
    (⟨0, 0, 0⟩ : Part003.Coin) ∈ Part003.generateCoins 0 0 1 ∧
    (⟨1, 1, 0⟩ : Part003.Coin) ∈ Part003.generateCoins 1 1 1 ∧
    (⟨0, 0, 0⟩ : Part003.Coin).id = (⟨1, 1, 0⟩ : Part003.Coin).id := by
  decide

/-- Claim C1, amended: the counter-based generator `createCoins` of
`part_001`/`part_002` does mint globally fresh serials — for every sequence
of mint operations during one process lifetime (counter starting at 0), the
serials of all minted coins, across all cells and in mint order, are
strictly increasing, hence pairwise distinct.  `part_003`'s `generateCoins`
instead numbers coins per call (`c1_counterexample`), so there uniqueness
holds only within a single call. -/
theorem c1_serials_globally_fresh (reqs : List (ℤ × ℤ × ℕ)) :
    List.Pairwise (· < ·) ((Part002.mintAll reqs 0).1.map Part002.Coin.serial) := by
  rw [mintAll_serials]
  exact List.pairwise_lt_range' 0 ((reqs.map (fun r => r.2.2)).sum)

/-! ## Claim C6: one regeneration pass -/

theorem mem_cellRange {c R : ℤ} (hR : 0 ≤ R) (t : ℤ) :
    t ∈ Part003.cellRange c R ↔ c - R ≤ t ∧ t ≤ c + R := by
  unfold Part003.cellRange
  constructor
  · intro h
    obtain ⟨u, hu, heq⟩ := List.mem_map.mp h
    rw [List.mem_range] at hu
    omega
  · rintro ⟨h1, h2⟩
    exact List.mem_map.mpr
      ⟨(t - (c - R)).toNat, List.mem_range.mpr (by omega), by omega⟩

theorem mem_squareCells {px py R : ℤ} (hR : 0 ≤ R) (x y : ℤ) :
    (x, y) ∈ Part003.squareCells px py R ↔ |x - px| ≤ R ∧ |y - py| ≤ R := by
  unfold Part003.squareCells
  simp only [List.mem_flatMap, List.mem_map, Prod.mk.injEq]
  constructor
  · rintro ⟨a, ha, b, hb, rfl, rfl⟩
    rw [mem_cellRange hR] at ha hb
    rw [abs_le, abs_le]
    omega
  · rintro ⟨h1, h2⟩
    rw [abs_le] at h1 h2
    exact ⟨x, (mem_cellRange hR x).mpr (by omega), y,
      (mem_cellRange hR y).mpr (by omega), rfl, rfl⟩

/-- With spawn probability 0 and draws in `[0, 1)`, one loop iteration only
advances the RNG cursor. -/
theorem regenStep_zero (rand : ℕ → ℚ) (h0 : ∀ n, 0 ≤ rand n)
    (w : Part003.RegenState) (cell : ℤ × ℤ) :
    Part003.regenStep rand 0 w cell = { w with k := w.k + 1 } := by
  unfold Part003.regenStep
  simp [not_lt.mpr (h0 w.k)]

theorem foldl_regenStep_zero (rand : ℕ → ℚ) (h0 : ∀ n, 0 ≤ rand n) :
    ∀ (cells : List (ℤ × ℤ)) (w : Part003.RegenState),
      ((cells.foldl (Part003.regenStep rand 0) w).caches = w.caches ∧
        (cells.foldl (Part003.regenStep rand 0) w).factory = w.factory) := by
  intro cells
  induction cells with
  | nil => simp
  | cons c cells ih =>
    intro w
    rw [List.foldl_cons, regenStep_zero rand h0 w c]
    exact ih _

/-- `createCache` for one cell reads other cells' registry entries unchanged. -/
theorem createCache_get_ne (rand : ℕ → ℚ) (x y : ℤ) (w : Part003.RegenState)
    (c : ℤ × ℤ) (h : c ≠ (x, y)) :
    mapGet (Part003.createCache rand x y w).caches c = mapGet w.caches c := by
  unfold Part003.createCache
  cases hg : mapGet w.caches (x, y) with
  | some z => simp [hg]
  | none => simp [hg, mapGet_mapSet_ne _ _ _ _ h]

theorem regenStep_get_ne (rand : ℕ → ℚ) (p : ℚ) (w : Part003.RegenState)
    (cell c : ℤ × ℤ) (h : c ≠ cell) :
    mapGet (Part003.regenStep rand p w cell).caches c = mapGet w.caches c := by
  unfold Part003.regenStep
  by_cases hr : rand w.k < p
  · simpa [hr] using createCache_get_ne rand cell.1 cell.2 _ c (by simpa using h)
  · simp [hr]

/-- Registry entries survive `createCache`. -/
theorem createCache_preserve (rand : ℕ → ℚ) (x y : ℤ) (w : Part003.RegenState)
    (c : ℤ × ℤ) (z : Part003.CacheZone) (h : mapGet w.caches c = some z) :
    mapGet (Part003.createCache rand x y w).caches c = some z := by
  by_cases hc : c = (x, y)
  · subst hc
    rw [createCache_mem, h]
  · rw [createCache_get_ne rand x y w c hc]
    exact h

theorem regenStep_preserve (rand : ℕ → ℚ) (p : ℚ) (w : Part003.RegenState)
    (cell c : ℤ × ℤ) (z : Part003.CacheZone) (h : mapGet w.caches c = some z) :
    mapGet (Part003.regenStep rand p w cell).caches c = some z := by
  unfold Part003.regenStep
  by_cases hr : rand w.k < p
  · simp only [hr, if_true]
    exact createCache_preserve rand cell.1 cell.2 { w with k := w.k + 1 } c z h
  · simpa [hr] using h

theorem foldl_regenStep_preserve (rand : ℕ → ℚ) (p : ℚ) :
    ∀ (cells : List (ℤ × ℤ)) (w : Part003.RegenState) (c : ℤ × ℤ)
      (z : Part003.CacheZone), mapGet w.caches c = some z →
      mapGet ((cells.foldl (Part003.regenStep rand p) w)).caches c = some z := by
  intro cells
  induction cells with
  | nil => intro w c z h; simpa using h
  | cons c0 cells ih =>
    intro w c z h
    rw [List.foldl_cons]
    exact ih _ c z (regenStep_preserve rand p w c0 c z h)

/-- With spawn probability 1 and draws below 1, every visited cell ends up
registered. -/
theorem foldl_regenStep_one (rand : ℕ → ℚ) (h1 : ∀ n, rand n < 1) :
    ∀ (cells : List (ℤ × ℤ)) (w : Part003.RegenState) (cell : ℤ × ℤ),
      cell ∈ cells →
      (mapGet ((cells.foldl (Part003.regenStep rand 1) w)).caches cell).isSome := by
  intro cells
  induction cells with
  | nil => intro w cell h; simp at h
  | cons c0 cells ih =>
    intro w cell hmem
    rw [List.foldl_cons]
    rcases List.mem_cons.mp hmem with hhd | htl
    · subst hhd
      have hreg : (mapGet (Part003.regenStep rand 1 w cell).caches cell).isSome := by
        unfold Part003.regenStep
        rw [if_pos (h1 w.k)]
        rw [show cell = (cell.1, cell.2) by rfl, createCache_mem]
        rfl
      obtain ⟨z, hz⟩ := Option.isSome_iff_exists.mp hreg
      rw [foldl_regenStep_preserve rand 1 cells _ cell z hz]
      rfl
    · exact ih _ cell htl

/-- A spawn pass over fresh, duplicate-free cells appends exactly those cells
to the registry's key list, in visit order. -/
theorem foldl_regenStep_keys (rand : ℕ → ℚ) (h1 : ∀ n, rand n < 1) :
    ∀ (cells : List (ℤ × ℤ)) (w : Part003.RegenState), cells.Nodup →
      (∀ c ∈ cells, mapGet w.caches c = none) →
      ((cells.foldl (Part003.regenStep rand 1) w).caches).map Prod.fst =
        w.caches.map Prod.fst ++ cells := by
  intro cells
  induction cells with
  | nil => intro w _ _; simp
  | cons c0 cells ih =>
    intro w hnd hab
    have habs : mapGet w.caches c0 = none := hab c0 (by simp)
    have hstep : (Part003.regenStep rand 1 w c0).caches.map Prod.fst =
        w.caches.map Prod.fst ++ [c0] := by
      unfold Part003.regenStep Part003.createCache
      rw [if_pos (h1 w.k)]
      simp only []
      rw [show ((c0.1, c0.2) : ℤ × ℤ) = c0 from rfl, habs]
      simpa using mapSet_keys_of_absent w.caches c0 _ habs
    have hab' : ∀ c ∈ cells, mapGet (Part003.regenStep rand 1 w c0).caches c = none := by
      intro c hc
      have hne : c ≠ c0 := by
        intro h
        subst h
        exact (List.nodup_cons.mp hnd).1 hc
      rw [regenStep_get_ne rand 1 w c0 c hne]
      exact hab c (by simp [hc])
    rw [List.foldl_cons, ih _ (List.nodup_cons.mp hnd).2 hab', hstep,
      List.append_assoc]
    rfl

/-- Claim C6: one regeneration pass (given a draw stream in `[0, 1)`,
one fresh draw per cell): (i) the swept square is exactly the set of cells
within Chebyshev radius `R` of the player's cell; (ii) with spawn
probability 0 the pass creates no `CacheZone` (registry unchanged);
(iii) with probability 1 every cell of the square ends up registered;
(iv) the scenario — player at `(0, 0)`, radius 1, probability 1, empty
registry — leaves the registry holding exactly the 9 cells from `(-1, -1)`
to `(1, 1)`. -/
theorem c6_regeneration_pass (rand : ℕ → ℚ) (h0 : ∀ n, 0 ≤ rand n)
    (h1 : ∀ n, rand n < 1) :
    (∀ px py R x y, 0 ≤ R →
        ((x, y) ∈ Part003.squareCells px py R ↔ |x - px| ≤ R ∧ |y - py| ≤ R)) ∧
    (∀ (R : ℤ) (pos : ℚ × ℚ) (w : Part003.RegenState),
        (Part003.regenerateNearbyCaches R 0 rand pos w).caches = w.caches) ∧
    (∀ (R : ℤ) (pos : ℚ × ℚ) (w : Part003.RegenState) (cell : ℤ × ℤ),
        cell ∈ Part003.squareCells
            ⌊(pos.1 - INITIAL_POSITION.1) / GRID_STEP⌋
            ⌊(pos.2 - INITIAL_POSITION.2) / GRID_STEP⌋ R →
        (mapGet (Part003.regenerateNearbyCaches R 1 rand pos w).caches
          cell).isSome) ∧
    ((Part003.regenerateNearbyCaches 1 1 rand (0, 0) ⟨[], [], 0⟩).caches.map
        Prod.fst =
      [(-1, -1), (-1, 0), (-1, 1), (0, -1), (0, 0), (0, 1),
        (1, -1), (1, 0), (1, 1)]) := by
  refine ⟨?_, ?_, ?_, ?_⟩
  · intro px py R x y hR
    exact mem_squareCells hR x y
  · intro R pos w
    unfold Part003.regenerateNearbyCaches
    exact (foldl_regenStep_zero rand h0 _ w).1
  · intro R pos w cell hmem
    unfold Part003.regenerateNearbyCaches
    exact foldl_regenStep_one rand h1 _ w cell hmem
  · unfold Part003.regenerateNearbyCaches
    norm_num [INITIAL_POSITION, GRID_STEP]
    rw [foldl_regenStep_keys rand h1 (Part003.squareCells 0 0 1) ⟨[], [], 0⟩
      (by decide) (by intro c _; rfl)]
    decide

/-- Witness for C6 with the constant draw stream `1/2`. -/
theorem c6_regeneration_pass_witness :
    ((∀ n : ℕ, 0 ≤ (fun _ : ℕ => (1 : ℚ) / 2) n) ∧
      (∀ n : ℕ, (fun _ : ℕ => (1 : ℚ) / 2) n < 1)) ∧
    ((∀ px py R x y, 0 ≤ R →
        ((x, y) ∈ Part003.squareCells px py R ↔ |x - px| ≤ R ∧ |y - py| ≤ R)) ∧
      (∀ (R : ℤ) (pos : ℚ × ℚ) (w : Part003.RegenState),
        (Part003.regenerateNearbyCaches R 0 (fun _ => (1 : ℚ) / 2) pos w).caches =
          w.caches) ∧
      (∀ (R : ℤ) (pos : ℚ × ℚ) (w : Part003.RegenState) (cell : ℤ × ℤ),
        cell ∈ Part003.squareCells
            ⌊(pos.1 - INITIAL_POSITION.1) / GRID_STEP⌋
            ⌊(pos.2 - INITIAL_POSITION.2) / GRID_STEP⌋ R →
        (mapGet (Part003.regenerateNearbyCaches R 1 (fun _ => (1 : ℚ) / 2) pos
            w).caches cell).isSome) ∧
      ((Part003.regenerateNearbyCaches 1 1 (fun _ => (1 : ℚ) / 2) (0, 0)
          ⟨[], [], 0⟩).caches.map Prod.fst =
        [(-1, -1), (-1, 0), (-1, 1), (0, -1), (0, 0), (0, 1),
          (1, -1), (1, 0), (1, 1)])) :=
  ⟨⟨fun _ => by norm_num, fun _ => by norm_num⟩,
    c6_regeneration_pass (fun _ => (1 : ℚ) / 2)
      (fun _ => by norm_num) (fun _ => by norm_num)⟩

/-! ## Claim C10: trail length equals the move counter -/

/-- Every event handler preserves `playerTrail.length = totalMoves`:
movement events append one trail point and bump the counter together, reset
clears both together, and cache interactions touch neither. -/
theorem step_preserves_trail_inv (rand : ℕ → ℚ) (s : Part003.GameState × ℕ)
    (e : Part003.Event) (h : s.1.playerTrail.length = s.1.totalMoves) :
    (Part003.step rand s e).1.playerTrail.length =
      (Part003.step rand s e).1.totalMoves := by
  cases e with
  | btnNorth =>
    simp [Part003.step, Part003.movePlayerTo, Part003.saveGameProgress, h]
  | btnSouth =>
    simp [Part003.step, Part003.movePlayerTo, Part003.saveGameProgress, h]
  | btnWest =>
    simp [Part003.step, Part003.movePlayerTo, Part003.saveGameProgress, h]
  | btnEast =>
    simp [Part003.step, Part003.movePlayerTo, Part003.saveGameProgress, h]
  | geo lat lng =>
    simp [Part003.step, Part003.movePlayerTo, Part003.saveGameProgress, h]
  | collect x y =>
    simp only [Part003.step]
    unfold Part003.collectHandler
    cases hg : mapGet s.1.caches (x, y) with
    | none => simpa using h
    | some cache =>
      by_cases hc : cache.storedCoins.length > 0
      · simpa [hc] using h
      · simpa [hc] using h
  | deposit x y =>
    simp only [Part003.step]
    unfold Part003.depositHandler
    cases hg : mapGet s.1.caches (x, y) with
    | none => simpa using h
    | some cache =>
      by_cases hc : s.1.collectedCoins > 0
      · simpa [hc] using h
      · simpa [hc] using h
  | reset => simp [Part003.step, Part003.resetHandler]

/-- Claim C10: in every state reachable by a session's events from script
start, the player trail's length equals the recorded number of moves — each
movement event (button press or geolocation update) appends exactly one
coordinate and increments the counter by one, and reset clears both. -/
theorem c10_trail_length_eq_moves (rand : ℕ → ℚ) (es : List Part003.Event) :
    (Part003.runEvents rand es).1.playerTrail.length =
      (Part003.runEvents rand es).1.totalMoves := by
  unfold Part003.runEvents
  have main : ∀ (l : List Part003.Event) (s : Part003.GameState × ℕ),
      s.1.playerTrail.length = s.1.totalMoves →
      (l.foldl (Part003.step rand) s).1.playerTrail.length =
        (l.foldl (Part003.step rand) s).1.totalMoves := by
    intro l
    induction l with
    | nil => intro s h; simpa using h
    | cons e l ih =>
      intro s h
      rw [List.foldl_cons]
      exact ih _ (step_preserves_trail_inv rand s e h)
  exact main es (Part003.initState, 0) rfl

/-! ## Round trip of the JSON model: digit level -/

theorem digitChar_isDigit {d : ℕ} (h : d < 10) : (Nat.digitChar d).isDigit = true := by
  interval_cases d <;> decide

theorem digitChar_toNat {d : ℕ} (h : d < 10) : (Nat.digitChar d).toNat = 48 + d := by
  interval_cases d <;> decide

theorem digitChar_ne_special {d : ℕ} (h : d < 10) :
    Nat.digitChar d ≠ '-' ∧ Nat.digitChar d ≠ 'n' ∧ Nat.digitChar d ≠ 't' ∧
    Nat.digitChar d ≠ 'f' ∧ Nat.digitChar d ≠ '"' ∧ Nat.digitChar d ≠ '[' ∧
    Nat.digitChar d ≠ '{' ∧ Nat.digitChar d ≠ ']' ∧ Nat.digitChar d ≠ '}' ∧
    Nat.digitChar d ≠ ',' := by
  interval_cases d <;> decide

theorem numStop_to_digitStop {cs : List Char} (h : numStop cs = true) :
    digitStop cs = true := by
  cases cs with
  | nil => rfl
  | cons c cs =>
    simp [numStop, Bool.and_eq_true] at h
    simpa [digitStop] using h.1

theorem listStop_to_numStop {cs : List Char} (h : listStop cs = true) :
    numStop cs = true := by
  cases cs with
  | nil => rfl
  | cons c cs =>
    simp [listStop, Bool.and_eq_true] at h
    simp [numStop, Bool.and_eq_true]
    exact ⟨h.1.1, h.1.2⟩

/-- `parseDigits` consumes exactly a printed digit block, accumulating its
value most-significant-first. -/
theorem parseDigits_spec (ds : List ℕ) (hds : ∀ d ∈ ds, d < 10)
    (rest : List Char) (hrest : digitStop rest = true) :
    ∀ acc cnt : ℕ,
      parseDigits (ds.map Nat.digitChar ++ rest) acc cnt =
        (acc * 10 ^ ds.length + Nat.ofDigits 10 ds.reverse, cnt + ds.length, rest) := by
  induction ds with
  | nil =>
    intro acc cnt
    cases rest with
    | nil => simp [parseDigits]
    | cons c cs =>
      have hc : c.isDigit = false := by
        simpa [digitStop] using hrest
      simp [parseDigits, hc]
  | cons d ds ih =>
    intro acc cnt
    have hd : d < 10 := hds d (by simp)
    simp only [List.map_cons, List.cons_append, parseDigits,
      digitChar_isDigit hd, if_true, digitChar_toNat hd]
    have harg : 48 + d - 48 = d := by omega
    rw [harg, show (List.map Nat.digitChar ds).append rest =
      List.map Nat.digitChar ds ++ rest from rfl,
      ih (fun x hx => hds x (by simp [hx]))]
    have hof : Nat.ofDigits 10 ((d :: ds).reverse) =
        Nat.ofDigits 10 ds.reverse + 10 ^ ds.length * d := by
      rw [List.reverse_cons, Nat.ofDigits_append]
      simp [Nat.ofDigits]
    rw [List.length_cons, hof]
    simp only [Prod.mk.injEq]
    refine ⟨by ring, by omega, trivial⟩


theorem ofDigits_replicate_zero (k : ℕ) :
    Nat.ofDigits 10 (List.replicate k 0) = 0 := by
  induction k with
  | zero => simp [Nat.ofDigits]
  | succ k ih => simp [List.replicate_succ, Nat.ofDigits, ih]

theorem digits_len_le_of_lt_pow {m e : ℕ} (h : m < 10 ^ e) :
    (Nat.digits 10 m).length ≤ e := by
  by_cases hm : m = 0
  · subst hm
    simp
  · by_contra hc
    push_neg at hc
    have h1 : 10 ^ (Nat.digits 10 m).length ≤ 10 * m :=
      Nat.base_pow_length_digits_le 10 m (by norm_num) hm
    have h2 : 10 ^ (e + 1) ≤ 10 ^ (Nat.digits 10 m).length :=
      Nat.pow_le_pow_right (by norm_num) (by omega)
    have h3 : 10 * 10 ^ e ≤ 10 * m := by
      calc 10 * 10 ^ e = 10 ^ (e + 1) := by ring
      _ ≤ 10 ^ (Nat.digits 10 m).length := h2
      _ ≤ 10 * m := h1
    have h4 : 10 ^ e ≤ m := Nat.le_of_mul_le_mul_left h3 (by norm_num)
    omega

theorem natDigits_eq_digits_of_le (fuel : ℕ) :
    ∀ n : ℕ, n ≤ fuel → natDigits fuel n = Nat.digits 10 n := by
  induction fuel with
  | zero =>
    intro n hn
    have : n = 0 := by omega
    subst this
    simp [natDigits, Nat.digits_zero]
  | succ fuel ih =>
    intro n hn
    by_cases h0 : n = 0
    · subst h0
      simp [natDigits, Nat.digits_zero]
    · have hd : Nat.digits 10 n = n % 10 :: Nat.digits 10 (n / 10) :=
        Nat.digits_def' (by norm_num) (Nat.pos_of_ne_zero h0)
      have hlt : n / 10 < n := Nat.div_lt_self (Nat.pos_of_ne_zero h0) (by norm_num)
      rw [show natDigits (fuel + 1) n = n % 10 :: natDigits fuel (n / 10) by
        simp [natDigits, h0], ih (n / 10) (by omega), hd]

theorem natDigits_eq_digits (n : ℕ) : natDigits n n = Nat.digits 10 n :=
  natDigits_eq_digits_of_le n n le_rfl

theorem msbDigits_ne_nil (n : ℕ) : msbDigits n ≠ [] := by
  unfold msbDigits
  rw [natDigits_eq_digits]
  by_cases hn : n = 0
  · simp [hn]
  · simp [hn, Nat.digits_ne_nil_iff_ne_zero.mpr hn]

theorem msbDigits_lt (n : ℕ) : ∀ d ∈ msbDigits n, d < 10 := by
  intro d hd
  unfold msbDigits at hd
  rw [natDigits_eq_digits] at hd
  by_cases hn : n = 0
  · simp [hn] at hd
    omega
  · simp [hn, List.mem_reverse] at hd
    exact Nat.digits_lt_base (by norm_num) hd

theorem ofDigits_msbDigits_reverse (n : ℕ) :
    Nat.ofDigits 10 (msbDigits n).reverse = n := by
  unfold msbDigits
  rw [natDigits_eq_digits]
  by_cases hn : n = 0
  · simp [hn, Nat.ofDigits]
  · simp [hn, List.reverse_reverse, Nat.ofDigits_digits]

theorem fracDigits_length {f e : ℕ} (hf : f < 10 ^ e) :
    (fracDigits f e).length = e := by
  unfold fracDigits
  rw [natDigits_eq_digits]
  have hle := digits_len_le_of_lt_pow hf
  simp [List.length_append, List.length_replicate]
  omega

theorem fracDigits_lt (f e : ℕ) : ∀ d ∈ fracDigits f e, d < 10 := by
  intro d hd
  unfold fracDigits at hd
  rw [natDigits_eq_digits] at hd
  rw [List.mem_reverse, List.mem_append] at hd
  rcases hd with hd | hd
  · exact Nat.digits_lt_base (by norm_num) hd
  · rw [List.eq_of_mem_replicate hd]
    omega

theorem ofDigits_fracDigits (f e : ℕ) :
    Nat.ofDigits 10 (fracDigits f e).reverse = f := by
  unfold fracDigits
  rw [natDigits_eq_digits]
  rw [List.reverse_reverse, Nat.ofDigits_append, Nat.ofDigits_digits,
    ofDigits_replicate_zero]
  ring

/-! ## Round trip of the JSON model: numbers -/

theorem parseFracPart_noFrac (neg : Bool) (i : ℕ) (rest : List Char)
    (hrest : numStop rest = true) :
    parseFracPart neg i rest = some (.num (mkNum neg (i : ℚ)), rest) := by
  cases rest with
  | nil => rfl
  | cons c cs =>
    simp only [numStop, Bool.and_eq_true, Bool.not_eq_true', decide_eq_true_eq]
      at hrest
    simp [parseFracPart, hrest.2]

theorem parseNumCore_int_part (neg : Bool) (n : ℕ) (rest : List Char)
    (hstop : digitStop rest = true) :
    parseNumCore neg (printNatChars n ++ rest) = parseFracPart neg n rest := by
  obtain ⟨d, ds, hds⟩ : ∃ d ds, msbDigits n = d :: ds := by
    cases h : msbDigits n with
    | nil => exact absurd h (msbDigits_ne_nil n)
    | cons d ds => exact ⟨d, ds, rfl⟩
  have hd : d < 10 := msbDigits_lt n d (by rw [hds]; simp)
  have hpd := parseDigits_spec (d :: ds) (by rw [← hds]; exact msbDigits_lt n)
    rest hstop 0 0
  unfold printNatChars
  rw [hds]
  simp only [List.map_cons, List.cons_append, parseNumCore,
    digitChar_isDigit hd, if_true]
  rw [show Nat.digitChar d :: (List.map Nat.digitChar ds ++ rest) =
    List.map Nat.digitChar (d :: ds) ++ rest from rfl, hpd]
  have hval : 0 * 10 ^ (d :: ds).length + Nat.ofDigits 10 (d :: ds).reverse = n := by
    rw [← hds, ofDigits_msbDigits_reverse]
    ring_nf
  rw [hval]

theorem parseNumCore_with_frac (neg : Bool) (a f e : ℕ) (he : 0 < e)
    (hf : f < 10 ^ e) (rest : List Char) (hrest : numStop rest = true) :
    parseNumCore neg (printNatChars a ++ '.' :: (printFrac f e ++ rest)) =
      some (.num (mkNum neg ((a : ℚ) + (f : ℚ) / 10 ^ e)), rest) := by
  rw [parseNumCore_int_part neg a _ (by rfl)]
  obtain ⟨d, ds, hds⟩ : ∃ d ds, fracDigits f e = d :: ds := by
    cases h : fracDigits f e with
    | nil =>
      have := fracDigits_length hf
      rw [h] at this
      simp at this
      omega
    | cons d ds => exact ⟨d, ds, rfl⟩
  have hd : d < 10 := fracDigits_lt f e d (by rw [hds]; simp)
  have hpd := parseDigits_spec (d :: ds) (by rw [← hds]; exact fracDigits_lt f e)
    rest (numStop_to_digitStop hrest) 0 0
  unfold printFrac
  rw [hds]
  simp only [List.map_cons, List.cons_append, parseFracPart, if_pos rfl,
    digitChar_isDigit hd, if_true]
  rw [show Nat.digitChar d :: (List.map Nat.digitChar ds ++ rest) =
    List.map Nat.digitChar (d :: ds) ++ rest from rfl, hpd]
  have hval : 0 * 10 ^ (d :: ds).length + Nat.ofDigits 10 (d :: ds).reverse = f := by
    rw [← hds, ofDigits_fracDigits]
    ring_nf
  have hcnt : (d :: ds).length = e := by
    rw [← hds, fracDigits_length hf]
  rw [hval, hcnt]
  simp

theorem parseNum_minus (cs : List Char) :
    parseNum ('-' :: cs) = parseNumCore true cs := rfl

theorem parseNum_printNatChars (n : ℕ) (rest : List Char) :
    parseNum (printNatChars n ++ rest) =
      parseNumCore false (printNatChars n ++ rest) := by
  obtain ⟨d, ds, hds⟩ : ∃ d ds, msbDigits n = d :: ds := by
    cases h : msbDigits n with
    | nil => exact absurd h (msbDigits_ne_nil n)
    | cons d ds => exact ⟨d, ds, rfl⟩
  have hd : d < 10 := msbDigits_lt n d (by rw [hds]; simp)
  unfold printNatChars
  rw [hds]
  simp [parseNum, (digitChar_ne_special hd).1]

/-- A printed signed decimal `M / 10^e` parses back to its value. -/
theorem parseNum_printDec (M : ℤ) (e : ℕ) (rest : List Char)
    (hrest : numStop rest = true) :
    parseNum (printDec M e ++ rest) = some (.num ((M : ℚ) / 10 ^ e), rest) := by
  have habs_neg : M < 0 → ((M.natAbs : ℕ) : ℚ) = -(M : ℚ) := by
    intro hneg
    rw [Int.cast_natAbs, Int.cast_abs,
      abs_of_neg (show (M : ℚ) < 0 by exact_mod_cast hneg)]
  have habs_pos : ¬ M < 0 → ((M.natAbs : ℕ) : ℚ) = (M : ℚ) := by
    intro hpos
    rw [Int.cast_natAbs, Int.cast_abs,
      abs_of_nonneg (show (0 : ℚ) ≤ (M : ℚ) by exact_mod_cast not_lt.mp hpos)]
  unfold printDec
  by_cases he0 : e = 0
  · subst he0
    rw [if_pos rfl]
    by_cases hneg : M < 0
    · rw [if_pos hneg, List.append_assoc, List.singleton_append, parseNum_minus,
        parseNumCore_int_part true M.natAbs rest (numStop_to_digitStop hrest),
        parseFracPart_noFrac true M.natAbs rest hrest]
      have : mkNum true ((M.natAbs : ℕ) : ℚ) = (M : ℚ) / 10 ^ 0 := by
        unfold mkNum
        rw [if_pos rfl, habs_neg hneg]
        simp
      rw [this]
    · rw [if_neg hneg, List.nil_append, parseNum_printNatChars,
        parseNumCore_int_part false M.natAbs rest (numStop_to_digitStop hrest),
        parseFracPart_noFrac false M.natAbs rest hrest]
      have : mkNum false ((M.natAbs : ℕ) : ℚ) = (M : ℚ) / 10 ^ 0 := by
        unfold mkNum
        rw [if_neg (by simp), habs_pos hneg]
        simp
      rw [this]
  · have hepos : 0 < e := Nat.pos_of_ne_zero he0
    have hf : M.natAbs % 10 ^ e < 10 ^ e := Nat.mod_lt _ (by positivity)
    have hsum : ((M.natAbs / 10 ^ e : ℕ) : ℚ) +
        ((M.natAbs % 10 ^ e : ℕ) : ℚ) / (10 : ℚ) ^ e =
        ((M.natAbs : ℕ) : ℚ) / (10 : ℚ) ^ e := by
      field_simp
      have hcast := congrArg (Nat.cast : ℕ → ℚ) (Nat.div_add_mod M.natAbs (10 ^ e))
      push_cast at hcast
      rw [← hcast]
      ring
    rw [if_neg he0]
    by_cases hneg : M < 0
    · rw [if_pos hneg, List.append_assoc, List.singleton_append,
        List.append_assoc, List.cons_append, parseNum_minus,
        parseNumCore_with_frac true (M.natAbs / 10 ^ e) (M.natAbs % 10 ^ e) e
          hepos hf rest hrest]
      have : mkNum true
          (((M.natAbs / 10 ^ e : ℕ) : ℚ) + ((M.natAbs % 10 ^ e : ℕ) : ℚ) / 10 ^ e)
          = (M : ℚ) / 10 ^ e := by
        unfold mkNum
        rw [if_pos rfl, hsum, habs_neg hneg]
        ring
      rw [this]
    · rw [if_neg hneg, List.nil_append, List.append_assoc, List.cons_append,
        parseNum_printNatChars,
        parseNumCore_with_frac false (M.natAbs / 10 ^ e) (M.natAbs % 10 ^ e) e
          hepos hf rest hrest]
      have : mkNum false
          (((M.natAbs / 10 ^ e : ℕ) : ℚ) + ((M.natAbs % 10 ^ e : ℕ) : ℚ) / 10 ^ e)
          = (M : ℚ) / 10 ^ e := by
        unfold mkNum
        rw [if_neg (by simp), hsum, habs_pos hneg]
      rw [this]

/-- A printed rational with a finite decimal expansion parses back to itself. -/
theorem parseNum_printNum (q : ℚ) (hq : (decExp q.den).isSome = true)
    (rest : List Char) (hrest : numStop rest = true) :
    parseNum (printNum q ++ rest) = some (.num q, rest) := by
  obtain ⟨e, he⟩ := Option.isSome_iff_exists.mp hq
  have hdvd : q.den ∣ 10 ^ e := by
    unfold decExp at he
    have hp := List.find?_some he
    exact of_decide_eq_true hp
  have hden0 : q.den ≠ 0 := q.den_nz
  obtain ⟨k, hk⟩ := hdvd
  have hkd : (10 ^ e : ℕ) / q.den = k := by
    rw [hk]
    exact Nat.mul_div_cancel_left k (Nat.pos_of_ne_zero hden0)
  have h2 : (q.den : ℚ) * (k : ℚ) = (10 : ℚ) ^ e := by
    have h := congrArg (Nat.cast : ℕ → ℚ) hk
    push_cast at h
    exact h.symm
  have h3 : q * (q.den : ℚ) = (q.num : ℚ) := Rat.mul_den_eq_num q
  have hval : ((q.num * (k : ℤ) : ℤ) : ℚ) / (10 : ℚ) ^ e = q := by
    rw [div_eq_iff (by positivity : ((10 : ℚ)) ^ e ≠ 0), ← h2]
    push_cast
    rw [← h3]
    ring
  unfold printNum
  rw [he]
  simp only [hkd]
  rw [parseNum_printDec (q.num * (k : ℤ)) e rest hrest, hval]

/-! ## Round trip of the JSON model: strings, sizes, dispatch -/

theorem parseStrBody_print (s : List Char) (hs : s.all safeChar = true)
    (rest : List Char) : parseStrBody (s ++ '"' :: rest) = some (s, rest) := by
  induction s with
  | nil => rfl
  | cons c cs ih =>
    simp only [List.all_cons, Bool.and_eq_true] at hs
    have hcq : c ≠ '"' := by
      have h := hs.1
      simp only [safeChar, Bool.and_eq_true, decide_eq_true_eq] at h
      exact h.1
    simp [parseStrBody, hcq, ih hs.2]

theorem jsize_pos (j : Json) : 1 ≤ jsize j := by
  cases j <;> simp [jsize]

theorem lsize_pos (xs : List Json) : 1 ≤ lsize xs := by
  cases xs with
  | nil => simp [lsize]
  | cons x xs =>
    have := jsize_pos x
    simp [lsize]
    omega

theorem msize_pos (ms : List (List Char × Json)) : 1 ≤ msize ms := by
  cases ms with
  | nil => simp [msize]
  | cons m ms =>
    have := jsize_pos m.2
    simp [msize]
    omega

theorem sizes_le_print (n : ℕ) :
    (∀ j : Json, sizeOf j ≤ n → jsize j ≤ (printJson j).length + 1) ∧
    (∀ xs : List Json, sizeOf xs ≤ n → lsize xs ≤ (printElems xs).length + 2) ∧
    (∀ ms : List (List Char × Json), sizeOf ms ≤ n →
      msize ms ≤ (printMembers ms).length + 2) := by
  induction n with
  | zero =>
    refine ⟨?_, ?_, ?_⟩
    · intro j hj
      exact absurd hj (by cases j <;> simp_arith)
    · intro xs hxs
      exact absurd hxs (by cases xs <;> simp_arith)
    · intro ms hms
      exact absurd hms (by cases ms <;> simp_arith)
  | succ n ih =>
    obtain ⟨ihj, ihl, ihm⟩ := ih
    refine ⟨?_, ?_, ?_⟩
    · intro j hj
      cases j with
      | null => simp [jsize, printJson]
      | bool b => cases b <;> simp [jsize, printJson]
      | num q => simp [jsize, printJson]
      | str s => simp [jsize, printJson]
      | arr xs =>
        have hxs : sizeOf xs ≤ n := by
          have hs : sizeOf (Json.arr xs) = 1 + sizeOf xs := by simp
          omega
        have h := ihl xs hxs
        simp only [jsize, printJson, List.cons_append, List.length_cons,
          List.length_append, List.length_cons, List.length_nil]
        omega
      | obj ms =>
        have hms : sizeOf ms ≤ n := by
          have hs : sizeOf (Json.obj ms) = 1 + sizeOf ms := by simp
          omega
        have h := ihm ms hms
        simp only [jsize, printJson, List.cons_append, List.length_cons,
          List.length_append, List.length_nil]
        omega
    · intro xs hxs
      cases xs with
      | nil => simp [lsize, printElems]
      | cons x xs' =>
        have hx : sizeOf x ≤ n ∧ sizeOf xs' ≤ n := by
          have hs : sizeOf (x :: xs') = 1 + sizeOf x + sizeOf xs' := by simp
          have h1 : 1 ≤ sizeOf x := by cases x <;> simp_arith
          have h2 : 1 ≤ sizeOf xs' := by cases xs' <;> simp_arith
          omega
        have h1 := ihj x hx.1
        cases xs' with
        | nil =>
          have e1 : lsize [x] = jsize x + 1 := rfl
          have e2 : printElems [x] = printJson x := rfl
          rw [e1, e2]
          omega
        | cons y ys =>
          have h2 := ihl (y :: ys) hx.2
          have e1 : lsize (x :: y :: ys) = jsize x + lsize (y :: ys) := rfl
          have e2 : printElems (x :: y :: ys) =
              printJson x ++ ',' :: printElems (y :: ys) := rfl
          rw [e1, e2]
          simp only [List.length_append, List.length_cons]
          omega
    · intro ms hms
      cases ms with
      | nil => simp [msize, printMembers]
      | cons m ms' =>
        obtain ⟨k, v⟩ := m
        have hx : sizeOf v ≤ n ∧ sizeOf ms' ≤ n := by
          simp only [List.cons.sizeOf_spec, Prod.mk.sizeOf_spec] at hms
          have h1 : 1 ≤ sizeOf v := by cases v <;> simp_arith
          have h2 : 1 ≤ sizeOf ms' := by cases ms' <;> simp_arith
          have h3 : 1 ≤ sizeOf k := by cases k <;> simp_arith
          omega
        have h1 := ihj v hx.1
        cases ms' with
        | nil =>
          have e1 : msize [(k, v)] = jsize v + 1 := rfl
          have e2 : printMembers [(k, v)] = '"' :: (k ++ '"' :: ':' :: printJson v) := rfl
          rw [e1, e2]
          simp only [List.length_cons, List.length_append]
          omega
        | cons m2 ms2 =>
          have h2 := ihm (m2 :: ms2) hx.2
          have e1 : msize ((k, v) :: m2 :: ms2) = jsize v + msize (m2 :: ms2) := rfl
          have e2 : printMembers ((k, v) :: m2 :: ms2) =
              ('"' :: (k ++ '"' :: ':' :: printJson v)) ++ ',' :: printMembers (m2 :: ms2) := rfl
          rw [e1, e2]
          simp only [List.length_append, List.length_cons]
          omega

theorem jsize_le_print (j : Json) : jsize j ≤ (printJson j).length + 1 :=
  (sizes_le_print (sizeOf j)).1 j le_rfl

theorem parseVal_succ_null (fuel : ℕ) (cs : List Char) :
    parseVal (fuel + 1) ('n' :: 'u' :: 'l' :: 'l' :: cs) = some (.null, cs) := rfl

theorem parseVal_succ_true (fuel : ℕ) (cs : List Char) :
    parseVal (fuel + 1) ('t' :: 'r' :: 'u' :: 'e' :: cs) =
      some (.bool true, cs) := rfl

theorem parseVal_succ_false (fuel : ℕ) (cs : List Char) :
    parseVal (fuel + 1) ('f' :: 'a' :: 'l' :: 's' :: 'e' :: cs) =
      some (.bool false, cs) := rfl

theorem parseVal_succ_quote (fuel : ℕ) (cs : List Char) :
    parseVal (fuel + 1) ('"' :: cs) =
      (parseStrBody cs).map (fun r => (.str r.1, r.2)) := rfl

theorem parseVal_succ_lbrack (fuel : ℕ) (c2 : Char) (r2 : List Char) :
    parseVal (fuel + 1) ('[' :: c2 :: r2) =
      if c2 = ']' then some (.arr [], r2)
      else
        match parseElems fuel (c2 :: r2) with
        | none => none
        | some (xs, r) =>
            match r with
            | [] => none
            | c3 :: r3 => if c3 = ']' then some (.arr xs, r3) else none := rfl

theorem parseVal_succ_lbrace (fuel : ℕ) (c2 : Char) (r2 : List Char) :
    parseVal (fuel + 1) ('{' :: c2 :: r2) =
      if c2 = '}' then some (.obj [], r2)
      else
        match parseMembers fuel (c2 :: r2) with
        | none => none
        | some (ms, r) =>
            match r with
            | [] => none
            | c3 :: r3 => if c3 = '}' then some (.obj ms, r3) else none := rfl

theorem parseVal_succ_default (fuel : ℕ) (c : Char) (cs : List Char)
    (h1 : c ≠ 'n') (h2 : c ≠ 't') (h3 : c ≠ 'f') (h4 : c ≠ '"')
    (h5 : c ≠ '[') (h6 : c ≠ '{') :
    parseVal (fuel + 1) (c :: cs) = parseNum (c :: cs) := by
  dsimp only [parseVal]
  rw [if_neg h1, if_neg h2, if_neg h3, if_neg h4, if_neg h5, if_neg h6]

/-- The first character of a printed decimal is a sign or digit, hence not a
dispatch or closer character. -/
theorem printDec_head (M : ℤ) (e : ℕ) :
    ∃ c cs, printDec M e = c :: cs ∧ c ≠ 'n' ∧ c ≠ 't' ∧ c ≠ 'f' ∧ c ≠ '"' ∧
      c ≠ '[' ∧ c ≠ '{' ∧ c ≠ ']' ∧ c ≠ '}' ∧ c ≠ ',' := by
  unfold printDec
  by_cases hneg : M < 0
  · rw [if_pos hneg]
    exact ⟨'-', _, rfl, by decide, by decide, by decide, by decide, by decide,
      by decide, by decide, by decide, by decide⟩
  · rw [if_neg hneg, List.nil_append]
    by_cases he0 : e = 0
    · rw [if_pos he0]
      obtain ⟨d, ds, hds⟩ : ∃ d ds, msbDigits M.natAbs = d :: ds := by
        cases h : msbDigits M.natAbs with
        | nil => exact absurd h (msbDigits_ne_nil _)
        | cons d ds => exact ⟨d, ds, rfl⟩
      have hd : d < 10 := msbDigits_lt _ d (by rw [hds]; simp)
      obtain ⟨n1, n2, n3, n4, n5, n6, n7, n8, n9, n10⟩ := digitChar_ne_special hd
      refine ⟨Nat.digitChar d, List.map Nat.digitChar ds, ?_,
        n2, n3, n4, n5, n6, n7, n8, n9, n10⟩
      unfold printNatChars
      rw [hds]
      simp
    · rw [if_neg he0]
      obtain ⟨d, ds, hds⟩ : ∃ d ds, msbDigits (M.natAbs / 10 ^ e) = d :: ds := by
        cases h : msbDigits (M.natAbs / 10 ^ e) with
        | nil => exact absurd h (msbDigits_ne_nil _)
        | cons d ds => exact ⟨d, ds, rfl⟩
      have hd : d < 10 := msbDigits_lt _ d (by rw [hds]; simp)
      obtain ⟨n1, n2, n3, n4, n5, n6, n7, n8, n9, n10⟩ := digitChar_ne_special hd
      refine ⟨Nat.digitChar d,
        List.map Nat.digitChar ds ++ '.' :: printFrac (M.natAbs % 10 ^ e) e, ?_,
        n2, n3, n4, n5, n6, n7, n8, n9, n10⟩
      unfold printNatChars
      rw [hds]
      simp

/-- The first character of any printed JSON value is a value-opening
character, never a closer or separator. -/
theorem printJson_head (j : Json) :
    ∃ c cs, printJson j = c :: cs ∧ c ≠ ']' ∧ c ≠ '}' ∧ c ≠ ',' := by
  cases j with
  | null => exact ⟨'n', _, rfl, by decide, by decide, by decide⟩
  | bool b =>
    cases b
    · exact ⟨'f', _, rfl, by decide, by decide, by decide⟩
    · exact ⟨'t', _, rfl, by decide, by decide, by decide⟩
  | num q =>
    rw [show printJson (.num q) = printNum q from rfl]
    unfold printNum
    cases hde : decExp q.den with
    | none => exact ⟨'0', _, rfl, by decide, by decide, by decide⟩
    | some e =>
      obtain ⟨c, cs, hcs, _, _, _, _, _, _, h7, h8, h9⟩ :=
        printDec_head (q.num * (((10 ^ e : ℕ) / q.den : ℕ) : ℤ)) e
      exact ⟨c, cs, hcs, h7, h8, h9⟩
  | str s => exact ⟨'"', _, rfl, by decide, by decide, by decide⟩
  | arr xs => exact ⟨'[', _, rfl, by decide, by decide, by decide⟩
  | obj ms => exact ⟨'{', _, rfl, by decide, by decide, by decide⟩

theorem parseElems_succ (fuel : ℕ) (cs : List Char) :
    parseElems (fuel + 1) cs =
      match parseVal fuel cs with
      | none => none
      | some (x, rest) =>
          match rest with
          | [] => some ([x], [])
          | c :: rest' =>
              if c = ',' then (parseElems fuel rest').map (fun r => (x :: r.1, r.2))
              else some ([x], c :: rest') := rfl

theorem parseMembers_succ_quote (fuel : ℕ) (cs : List Char) :
    parseMembers (fuel + 1) ('"' :: cs) =
      match parseStrBody cs with
      | none => none
      | some (key, rest2) =>
          match rest2 with
          | [] => none
          | c2 :: rest3 =>
              if c2 = ':' then
                match parseVal fuel rest3 with
                | none => none
                | some (v, rest4) =>
                    match rest4 with
                    | [] => some ([(key, v)], [])
                    | c3 :: rest5 =>
                        if c3 = ',' then
                          (parseMembers fuel rest5).map
                            (fun r => ((key, v) :: r.1, r.2))
                        else some ([(key, v)], c3 :: rest5)
              else none := rfl

theorem listStop_cons_ne_comma {c : Char} {cs : List Char}
    (h : listStop (c :: cs) = true) : c ≠ ',' := by
  simp only [listStop, Bool.and_eq_true, decide_eq_true_eq] at h
  exact h.2

/-- The printed form of any JSON value parses back, with any stopper suffix:
stated mutually for values, array elements and object members, by induction
on the parser fuel. -/
theorem parse_print_rt (fuel : ℕ) :
    (∀ (j : Json) (rest : List Char), safeJson j = true → jsize j ≤ fuel →
      numStop rest = true →
      parseVal fuel (printJson j ++ rest) = some (j, rest)) ∧
    (∀ (xs : List Json) (rest : List Char), xs ≠ [] → safeElems xs = true →
      lsize xs ≤ fuel → listStop rest = true →
      parseElems fuel (printElems xs ++ rest) = some (xs, rest)) ∧
    (∀ (ms : List (List Char × Json)) (rest : List Char), ms ≠ [] →
      safeMembers ms = true → msize ms ≤ fuel → listStop rest = true →
      parseMembers fuel (printMembers ms ++ rest) = some (ms, rest)) := by
  induction fuel with
  | zero =>
    refine ⟨?_, ?_, ?_⟩
    · intro j _ _ hsz _
      exact absurd hsz (by have := jsize_pos j; omega)
    · intro xs _ _ _ hsz _
      exact absurd hsz (by have := lsize_pos xs; omega)
    · intro ms _ _ _ hsz _
      exact absurd hsz (by have := msize_pos ms; omega)
  | succ fuel ih =>
    obtain ⟨ihV, ihL, ihM⟩ := ih
    refine ⟨?_, ?_, ?_⟩
    · intro j rest hsafe hsz hstop
      cases j with
      | null => exact parseVal_succ_null fuel rest
      | bool b =>
        cases b
        · exact parseVal_succ_false fuel rest
        · exact parseVal_succ_true fuel rest
      | num q =>
        have hq : (decExp q.den).isSome = true := by
          simpa [safeJson] using hsafe
        obtain ⟨e, he⟩ := Option.isSome_iff_exists.mp hq
        have hpn : ∃ c cs, printNum q = c :: cs ∧ c ≠ 'n' ∧ c ≠ 't' ∧ c ≠ 'f' ∧
            c ≠ '"' ∧ c ≠ '[' ∧ c ≠ '{' := by
          unfold printNum
          rw [he]
          obtain ⟨c, cs, hcs, m2, m3, m4, m5, m6, m7, _, _, _⟩ :=
            printDec_head (q.num * (((10 ^ e : ℕ) / q.den : ℕ) : ℤ)) e
          exact ⟨c, cs, hcs, m2, m3, m4, m5, m6, m7⟩
        obtain ⟨c, cs, hcs, m2, m3, m4, m5, m6, m7⟩ := hpn
        have hshape : printJson (.num q) ++ rest = c :: (cs ++ rest) := by
          rw [show printJson (.num q) = printNum q from rfl, hcs]
          simp
        rw [hshape, parseVal_succ_default fuel c (cs ++ rest) m2 m3 m4 m5 m6 m7,
          show c :: (cs ++ rest) = (c :: cs) ++ rest from rfl, ← hcs]
        exact parseNum_printNum q hq rest hstop
      | str s =>
        have hsafe' : s.all safeChar = true := by
          simpa [safeJson] using hsafe
        have hshape : printJson (.str s) ++ rest = '"' :: (s ++ ('"' :: rest)) := by
          simp [printJson]
        rw [hshape, parseVal_succ_quote, parseStrBody_print s hsafe' rest]
        rfl
      | arr xs =>
        cases xs with
        | nil =>
          rw [show printJson (.arr []) ++ rest = '[' :: ']' :: rest from rfl,
            parseVal_succ_lbrack]
          simp
        | cons x xs' =>
          have hsx : safeJson x = true ∧ safeElems xs' = true := by
            have h : safeJson (.arr (x :: xs')) = (safeJson x && safeElems xs') := rfl
            rw [h, Bool.and_eq_true] at hsafe
            exact hsafe
          have hsize : lsize (x :: xs') ≤ fuel := by
            have h : jsize (.arr (x :: xs')) = 1 + lsize (x :: xs') := rfl
            omega
          obtain ⟨c0, cs0, hc0, hne1, hne2, hne3⟩ := printJson_head x
          have hpe : ∃ t, printElems (x :: xs') = printJson x ++ t := by
            cases xs' with
            | nil => exact ⟨[], by simp [printElems]⟩
            | cons y ys => exact ⟨',' :: printElems (y :: ys), rfl⟩
          obtain ⟨t, ht⟩ := hpe
          have hshape : printJson (.arr (x :: xs')) ++ rest =
              '[' :: (printElems (x :: xs') ++ (']' :: rest)) := by
            simp [printJson]
          have hcons : printElems (x :: xs') ++ (']' :: rest) =
              c0 :: (cs0 ++ (t ++ (']' :: rest))) := by
            rw [ht, hc0]
            simp
          have helems := ihL (x :: xs') (']' :: rest) (by simp)
            (by have h : safeElems (x :: xs') = (safeJson x && safeElems xs') := rfl
                rw [h, Bool.and_eq_true]
                exact hsx)
            hsize (by rfl)
          rw [hshape, hcons, parseVal_succ_lbrack, if_neg hne1, ← hcons, helems]
          rfl
      | obj ms =>
        cases ms with
        | nil =>
          rw [show printJson (.obj []) ++ rest = '{' :: '}' :: rest from rfl,
            parseVal_succ_lbrace]
          simp
        | cons m ms' =>
          obtain ⟨k, v⟩ := m
          have hsx : (k.all safeChar = true ∧ safeJson v = true) ∧
              safeMembers ms' = true := by
            have h : safeJson (.obj ((k, v) :: ms')) =
                (k.all safeChar && safeJson v && safeMembers ms') := rfl
            rw [h, Bool.and_eq_true, Bool.and_eq_true] at hsafe
            exact ⟨hsafe.1, hsafe.2⟩
          have hsize : msize ((k, v) :: ms') ≤ fuel := by
            have h : jsize (.obj ((k, v) :: ms')) = 1 + msize ((k, v) :: ms') := rfl
            omega
          have hpm : ∃ t, printMembers ((k, v) :: ms') =
              '"' :: (k ++ '"' :: ':' :: printJson v) ++ t := by
            cases ms' with
            | nil => exact ⟨[], by simp [printMembers]⟩
            | cons m2 ms2 => exact ⟨',' :: printMembers (m2 :: ms2), rfl⟩
          obtain ⟨t, ht⟩ := hpm
          have hshape : printJson (.obj ((k, v) :: ms')) ++ rest =
              '{' :: (printMembers ((k, v) :: ms') ++ ('}' :: rest)) := by
            simp [printJson]
          have hcons : printMembers ((k, v) :: ms') ++ ('}' :: rest) =
              '"' :: ((k ++ '"' :: ':' :: printJson v) ++ (t ++ ('}' :: rest))) := by
            rw [ht]
            simp
          have hmems := ihM ((k, v) :: ms') ('}' :: rest) (by simp)
            (by have h : safeMembers ((k, v) :: ms') =
                  (k.all safeChar && safeJson v && safeMembers ms') := rfl
                rw [h, Bool.and_eq_true, Bool.and_eq_true]
                exact ⟨hsx.1, hsx.2⟩)
            hsize (by rfl)
          rw [hshape, hcons, parseVal_succ_lbrace, if_neg (by decide), ← hcons,
            hmems]
          rfl
    · intro xs rest hne hsafe hsz hstop
      cases xs with
      | nil => exact absurd rfl hne
      | cons x xs' =>
        have hsx : safeJson x = true ∧ safeElems xs' = true := by
          have h : safeElems (x :: xs') = (safeJson x && safeElems xs') := rfl
          rw [h, Bool.and_eq_true] at hsafe
          exact hsafe
        have hszx : jsize x ≤ fuel := by
          have h : lsize (x :: xs') = jsize x + lsize xs' := rfl
          have := lsize_pos xs'
          omega
        cases xs' with
        | nil =>
          rw [show printElems [x] = printJson x from rfl, parseElems_succ,
            ihV x rest hsx.1 hszx (listStop_to_numStop hstop)]
          cases rest with
          | nil => rfl
          | cons c rest' =>
            have hc : c ≠ ',' := listStop_cons_ne_comma hstop
            simp [hc]
        | cons y ys =>
          have hszys : lsize (y :: ys) ≤ fuel := by
            have h : lsize (x :: y :: ys) = jsize x + lsize (y :: ys) := rfl
            have := jsize_pos x
            omega
          have hshape : printElems (x :: y :: ys) ++ rest =
              printJson x ++ (',' :: (printElems (y :: ys) ++ rest)) := by
            rw [show printElems (x :: y :: ys) =
              printJson x ++ ',' :: printElems (y :: ys) from rfl]
            simp
          rw [hshape, parseElems_succ,
            ihV x (',' :: (printElems (y :: ys) ++ rest)) hsx.1 hszx (by rfl)]
          show (parseElems fuel (printElems (y :: ys) ++ rest)).map
              (fun r => (x :: r.1, r.2)) = some (x :: y :: ys, rest)
          rw [ihL (y :: ys) rest (by simp) hsx.2 hszys hstop]
          rfl
    · intro ms rest hne hsafe hsz hstop
      cases ms with
      | nil => exact absurd rfl hne
      | cons m ms' =>
        obtain ⟨k, v⟩ := m
        have hsx : (k.all safeChar = true ∧ safeJson v = true) ∧
            safeMembers ms' = true := by
          have h : safeMembers ((k, v) :: ms') =
              (k.all safeChar && safeJson v && safeMembers ms') := rfl
          rw [h, Bool.and_eq_true, Bool.and_eq_true] at hsafe
          exact ⟨hsafe.1, hsafe.2⟩
        have hszv : jsize v ≤ fuel := by
          have h : msize ((k, v) :: ms') = jsize v + msize ms' := rfl
          have := msize_pos ms'
          omega
        cases ms' with
        | nil =>
          have hshape : printMembers [(k, v)] ++ rest =
              '"' :: (k ++ '"' :: (':' :: (printJson v ++ rest))) := by
            rw [show printMembers [(k, v)] =
              '"' :: (k ++ '"' :: ':' :: printJson v) from rfl]
            simp
          rw [hshape, parseMembers_succ_quote,
            parseStrBody_print k hsx.1.1 (':' :: (printJson v ++ rest))]
          show (match parseVal fuel (printJson v ++ rest) with
                | none => none
                | some (v, rest4) =>
                    match rest4 with
                    | [] => some ([(k, v)], [])
                    | c3 :: rest5 =>
                        if c3 = ',' then
                          (parseMembers fuel rest5).map
                            (fun r => ((k, v) :: r.1, r.2))
                        else some ([(k, v)], c3 :: rest5)) =
            some ([(k, v)], rest)
          rw [ihV v rest hsx.1.2 hszv (listStop_to_numStop hstop)]
          cases rest with
          | nil => rfl
          | cons c rest' =>
            have hc : c ≠ ',' := listStop_cons_ne_comma hstop
            simp [hc]
        | cons m2 ms2 =>
          have hszms : msize (m2 :: ms2) ≤ fuel := by
            have h : msize ((k, v) :: m2 :: ms2) = jsize v + msize (m2 :: ms2) := rfl
            have := jsize_pos v
            omega
          have hshape : printMembers ((k, v) :: m2 :: ms2) ++ rest =
              '"' :: (k ++ '"' :: (':' :: (printJson v ++
                (',' :: (printMembers (m2 :: ms2) ++ rest))))) := by
            rw [show printMembers ((k, v) :: m2 :: ms2) =
              ('"' :: (k ++ '"' :: ':' :: printJson v)) ++
                ',' :: printMembers (m2 :: ms2) from rfl]
            simp
          rw [hshape, parseMembers_succ_quote,
            parseStrBody_print k hsx.1.1
              (':' :: (printJson v ++ (',' :: (printMembers (m2 :: ms2) ++ rest))))]
          show (match parseVal fuel (printJson v ++
                  (',' :: (printMembers (m2 :: ms2) ++ rest))) with
                | none => none
                | some (v, rest4) =>
                    match rest4 with
                    | [] => some ([(k, v)], [])
                    | c3 :: rest5 =>
                        if c3 = ',' then
                          (parseMembers fuel rest5).map
                            (fun r => ((k, v) :: r.1, r.2))
                        else some ([(k, v)], c3 :: rest5)) =
            some ((k, v) :: m2 :: ms2, rest)
          rw [ihV v (',' :: (printMembers (m2 :: ms2) ++ rest)) hsx.1.2 hszv
            (by rfl)]
          show (parseMembers fuel (printMembers (m2 :: ms2) ++ rest)).map
              (fun r => ((k, v) :: r.1, r.2)) = some ((k, v) :: m2 :: ms2, rest)
          rw [ihM (m2 :: ms2) rest (by simp) hsx.2 hszms hstop]
          rfl

/-- `JSON.parse ∘ JSON.stringify` is the identity on the printable fragment. -/
theorem parseJson_stringify (j : Json) (hj : safeJson j = true) :
    parseJson (stringify j) = some j := by
  unfold parseJson stringify
  rw [show (⟨printJson j⟩ : String).data = printJson j from rfl]
  have h := (parse_print_rt ((printJson j).length + 1)).1 j [] hj
    (jsize_le_print j) rfl
  rw [List.append_nil] at h
  rw [h]

/-! ## Decoding the printed snapshots -/

theorem asNat_natCast (n : ℕ) : asNat (.num (n : ℚ)) = some n := by
  simp [asNat, Rat.den_natCast, Rat.num_natCast]

theorem asInt_intCast (z : ℤ) : asInt (.num (z : ℚ)) = some z := by
  simp [asInt, Rat.den_intCast, Rat.num_intCast]

theorem decExp_one : decExp 1 = some 0 := by decide

theorem safeJson_natCast (n : ℕ) : safeJson (.num (n : ℚ)) = true := by
  show (decExp (n : ℚ).den).isSome = true
  rw [Rat.den_natCast, decExp_one]
  rfl

theorem safeJson_intCast (z : ℤ) : safeJson (.num (z : ℚ)) = true := by
  show (decExp (z : ℚ).den).isSome = true
  rw [Rat.den_intCast, decExp_one]
  rfl

theorem decodeLatLng_latLngJson (p : ℚ × ℚ) :
    Part003.decodeLatLng (Part003.latLngJson p) = some p := rfl

theorem mapM_decodeLatLng (tr : List (ℚ × ℚ)) :
    (tr.map Part003.latLngJson).mapM Part003.decodeLatLng = some tr := by
  induction tr with
  | nil => rfl
  | cons p tr ih =>
    rw [List.map_cons, List.mapM_cons, decodeLatLng_latLngJson p, ih]
    rfl

theorem decodeCoin_coinJson (c : Part001.Coin) :
    Part001.decodeCoin (Part001.coinJson c) = some c := by
  unfold Part001.decodeCoin
  rw [show objGet (Part001.coinJson c) ("i".data) = some (.num (c.i : ℚ)) from rfl,
    show objGet (Part001.coinJson c) ("j".data) = some (.num (c.j : ℚ)) from rfl,
    show objGet (Part001.coinJson c) ("serial".data) =
      some (.num (c.serial : ℚ)) from rfl]
  simp [asInt_intCast, asNat_natCast]

theorem mapM_decodeCoin (cs : List Part001.Coin) :
    (cs.map Part001.coinJson).mapM Part001.decodeCoin = some cs := by
  induction cs with
  | nil => rfl
  | cons c cs ih =>
    rw [List.map_cons, List.mapM_cons, decodeCoin_coinJson c, ih]
    rfl

theorem safeJson_coinJson (c : Part001.Coin) :
    safeJson (Part001.coinJson c) = true := by
  unfold Part001.coinJson
  show (("i".data).all safeChar && safeJson (.num (c.i : ℚ)) &&
      (("j".data).all safeChar && safeJson (.num (c.j : ℚ)) &&
        (("serial".data).all safeChar && safeJson (.num (c.serial : ℚ)) && true)))
    = true
  rw [safeJson_intCast c.i, safeJson_intCast c.j, safeJson_natCast c.serial]
  decide

theorem safeJson_coinArr (cs : List Part001.Coin) :
    safeJson (.arr (cs.map Part001.coinJson)) = true := by
  show safeElems (cs.map Part001.coinJson) = true
  induction cs with
  | nil => rfl
  | cons c cs ih =>
    rw [List.map_cons]
    show (safeJson (Part001.coinJson c) &&
      safeElems (cs.map Part001.coinJson)) = true
    rw [safeJson_coinJson c, ih]
    rfl

/-! ## Claim C9: memento round trip -/

/-- Claim C9: for every `part_001` cache, restoring the memento produced by
`toMemento` into any cache (the serialized zone itself or another one)
reproduces exactly the serialized coin sequence, replacing — not merging
with — the coins present at restore time. -/
theorem c9_memento_roundtrip (orig c : Part001.Cache) :
    c.fromMemento orig.toMemento = some { c with coins := orig.coins } := by
  unfold Part001.Cache.fromMemento Part001.Cache.toMemento
  rw [parseJson_stringify _ (safeJson_coinArr orig.coins)]
  show Option.bind ((orig.coins.map Part001.coinJson).mapM Part001.decodeCoin)
      (fun cs => some ({ c with coins := cs } : Part001.Cache)) =
    some ({ c with coins := orig.coins } : Part001.Cache)
  rw [mapM_decodeCoin orig.coins]
  rfl

/-! ## Claim C3: loading a malformed snapshot -/

/-- Counterexample to C3 as stated: `loadSavedGame` wraps `JSON.parse` in no
try/catch, so with the malformed string `"x"` stored under `"gameState"` the
parse exception escapes the load (modelled as `none`) instead of falling
back to the default initial state. -/
theorem c3_counterexample :
    Part003.loadSavedGame { Part003.initState with store := some "x" } = none := by
  decide

/-- Claim C3, amended: when nothing is stored (or the stored string is empty,
which the truthiness guard skips), `loadSavedGame` returns without touching
the state — at startup that state is the default initial one; but for a
malformed stored string the `JSON.parse` exception escapes the load, so the
operation does not fall back to the default state on corrupt input. -/
theorem c3_load_malformed (st : Part003.GameState)
    (h : st.store = none ∨ st.store = some "") :
    Part003.loadSavedGame st = some st ∧
    Part003.loadSavedGame { Part003.initState with store := some "x" } = none := by
  constructor
  · rcases h with h | h
    · simp [Part003.loadSavedGame, h]
    · simp [Part003.loadSavedGame, h]
  · decide

/-- Witness for C3 (amended) at the startup state, whose store is empty. -/
theorem c3_load_malformed_witness :
    (Part003.initState.store = none ∨ Part003.initState.store = some "") ∧
    (Part003.loadSavedGame Part003.initState = some Part003.initState ∧
      Part003.loadSavedGame { Part003.initState with store := some "x" } = none) :=
  ⟨Or.inl rfl, c3_load_malformed Part003.initState (Or.inl rfl)⟩

/-! ## Claim C4: the persisted snapshot and the save/load round trip -/

/-- Counterexample to C4 as stated: save a state whose registry holds a cache
at `(0, 0)`, load the produced snapshot into a fresh state — every snapshot
field is restored, but the loaded registry is empty: the snapshot does not
carry the registry contents (and carries `totalMoves`, which C4's shape
omits). -/
theorem c4_counterexample :
    ((Part003.loadSavedGame { Part003.initState with
        store := (Part003.saveGameProgress stateW4).store }).map
      Part003.GameState.caches = some []) ∧
    stateW4.caches = [((0, 0), ⟨0, 0, [⟨0, 0, 0⟩]⟩)] := by
  constructor
  · decide
  · decide

/-- Claim C4, amended: the snapshot handed to `localStorage` has the shape
`{totalScore, collectedCoins, totalMoves, playerTrail}`; loading a
save-produced snapshot into any state restores exactly those four fields.
The cache registry is not part of the snapshot and is left as it was in the
load target (`c4_counterexample` shows it is therefore not restored).  The
hypothesis asks the snapshot to lie in the printable JSON fragment — true
of every JavaScript number, and checkable by `decide` on concrete states. -/
theorem c4_snapshot_roundtrip (st st0 : Part003.GameState)
    (hsafe : safeJson (Part003.snapshotJson st) = true) :
    Part003.loadSavedGame { st0 with store := (Part003.saveGameProgress st).store } =
      some { st0 with
             totalScore := st.totalScore, collectedCoins := st.collectedCoins,
             totalMoves := st.totalMoves, playerTrail := st.playerTrail,
             store := (Part003.saveGameProgress st).store } := by
  obtain ⟨c0, cs0, hc0, _, _, _⟩ := printJson_head (Part003.snapshotJson st)
  have hne : (stringify (Part003.snapshotJson st)).data ≠ [] := by
    show printJson (Part003.snapshotJson st) ≠ []
    rw [hc0]
    simp
  rw [show (Part003.saveGameProgress st).store =
    some (stringify (Part003.snapshotJson st)) from rfl]
  unfold Part003.loadSavedGame
  show (if (stringify (Part003.snapshotJson st)).data = [] then
      some ({ st0 with store := some (stringify (Part003.snapshotJson st)) } :
        Part003.GameState)
    else do
      let j ← parseJson (stringify (Part003.snapshotJson st))
      let score ← objGet j ("totalScore".data) >>= asNat
      let coins ← objGet j ("collectedCoins".data) >>= asNat
      let moves ← objGet j ("totalMoves".data) >>= asNat
      let trailJ ← objGet j ("playerTrail".data) >>= asArr
      let trail ← trailJ.mapM Part003.decodeLatLng
      pure ({ st0 with
              totalScore := score, collectedCoins := coins,
              totalMoves := moves, playerTrail := trail,
              store := some (stringify (Part003.snapshotJson st)) } :
        Part003.GameState)) =
    some ({ st0 with
            totalScore := st.totalScore, collectedCoins := st.collectedCoins,
            totalMoves := st.totalMoves, playerTrail := st.playerTrail,
            store := some (stringify (Part003.snapshotJson st)) } :
      Part003.GameState)
  rw [if_neg hne, parseJson_stringify _ hsafe]
  show Option.bind (asNat (Json.num (st.totalScore : ℚ))) (fun score =>
      Option.bind (asNat (Json.num (st.collectedCoins : ℚ))) (fun coins =>
        Option.bind (asNat (Json.num (st.totalMoves : ℚ))) (fun moves =>
          Option.bind ((st.playerTrail.map Part003.latLngJson).mapM
              Part003.decodeLatLng) (fun trail =>
            some ({ st0 with
                    totalScore := score, collectedCoins := coins,
                    totalMoves := moves, playerTrail := trail,
                    store := some (stringify (Part003.snapshotJson st)) } :
              Part003.GameState))))) =
    some ({ st0 with
            totalScore := st.totalScore, collectedCoins := st.collectedCoins,
            totalMoves := st.totalMoves, playerTrail := st.playerTrail,
            store := some (stringify (Part003.snapshotJson st)) } :
      Part003.GameState)
  rw [asNat_natCast, asNat_natCast, asNat_natCast, mapM_decodeLatLng]
  rfl

/-- Witness for C4 (amended): saving `stateW4` (score 3, carried 1, two
moves, two trail points, one registered cache) and loading into the fresh
initial state restores the four snapshot fields and leaves the fresh
registry empty. -/
theorem c4_snapshot_roundtrip_witness :
    safeJson (Part003.snapshotJson stateW4) = true ∧
    Part003.loadSavedGame
        { Part003.initState with store := (Part003.saveGameProgress stateW4).store } =
      some { Part003.initState with
             totalScore := stateW4.totalScore,
             collectedCoins := stateW4.collectedCoins,
             totalMoves := stateW4.totalMoves,
             playerTrail := stateW4.playerTrail,
             store := (Part003.saveGameProgress stateW4).store } :=
  ⟨by decide, c4_snapshot_roundtrip stateW4 Part003.initState (by decide)⟩
